import Mathlib

/-!
# TinyMvn — formal verification of the artifact resolution and packaging core

A shallow embedding, in Lean 4, of the core logic of the TinyMvn repository:

* `src/routes/files.js` (repository dispatcher half): Maven-style path parsing
  (`GET /*`), metadata XML / POM synthesis, checksum synthesis, on-demand
  archive packaging (`addDirectoryToZip`), and the response taxonomy;
* `src/routes/files.js` (project routes, newer revision in the unnamed source
  part): version resolution for uploaded (`POST /api/upload`) and cloned
  (`POST /api/clone`) projects — `extractVersionFromFilename`,
  `extractVersionFromGradleProperties`, `fetchGitHubVersion` tag handling —
  and the project update flow (`POST /api/projects/:name/update`);
* `src/utils/fileUtils.js`: `findSrcMainFolder`.

Modelling conventions: directory trees are the mutual inductive
`FsTree`/`FsEntries` (entries carry their directory-listing order); JavaScript
strings are Lean `String`s (built as lists of `Char`s where convenient);
JavaScript `null`-or-string values are `Option String` with `||` modelled by
an explicit truthiness test; `fs.statSync(...).mtimeMs` is modelled as a `Nat`
millisecond count together with its decimal rendering; Node's `crypto`
MD5/SHA-1 digests are implemented concretely (with the published test vectors
proved below); the sidecar JSON document is modelled as the already-parsed
record `ProjMeta` (JSON (de)serialisation itself is out of scope).
-/

set_option maxRecDepth 8000

namespace TinyMvn

/-! ## Machine-word helpers (32-bit arithmetic on `Nat`) -/

def M32 : Nat := 4294967296

def rotl32 (x n : Nat) : Nat := ((x <<< n) ||| (x >>> (32 - n))) % M32

def not32 (x : Nat) : Nat := x ^^^ 4294967295

/-- Little-endian byte rendering of `x`, `w` bytes long. -/
def leBytes (w x : Nat) : List Nat :=
  (List.range w).map (fun i => (x >>> (8 * i)) &&& 0xFF)

/-- Big-endian byte rendering of `x`, `w` bytes long. -/
def beBytes (w x : Nat) : List Nat :=
  (List.range w).reverse.map (fun i => (x >>> (8 * i)) &&& 0xFF)

/-- UTF-8 encoding of a single code point. -/
def utf8Char (n : Nat) : List Nat :=
  if n < 0x80 then [n]
  else if n < 0x800 then [0xC0 ||| (n >>> 6), 0x80 ||| (n &&& 0x3F)]
  else if n < 0x10000 then
    [0xE0 ||| (n >>> 12), 0x80 ||| ((n >>> 6) &&& 0x3F), 0x80 ||| (n &&& 0x3F)]
  else
    [0xF0 ||| (n >>> 18), 0x80 ||| ((n >>> 12) &&& 0x3F),
     0x80 ||| ((n >>> 6) &&& 0x3F), 0x80 ||| (n &&& 0x3F)]

/-- UTF-8 encoding of a string, as Node's `hash.update(string)` performs it. -/
def utf8Encode (s : String) : List Nat := s.data.flatMap (fun c => utf8Char c.toNat)

/-- Split a byte list into 64-byte blocks (fuel-based so the kernel can reduce it). -/
def chunks64Aux : Nat → List Nat → List (List Nat)
  | 0, _ => []
  | _, [] => []
  | fuel + 1, l => l.take 64 :: chunks64Aux fuel (l.drop 64)

def chunks64 (l : List Nat) : List (List Nat) := chunks64Aux l.length l

/-! ## MD5 (RFC 1321), as used by Node `crypto.createHash('md5')` -/

/-- MD5 per-round additive constants. -/
def md5K : List Nat :=
  [0xd76aa478, 0xe8c7b756, 0x242070db, 0xc1bdceee,
   0xf57c0faf, 0x4787c62a, 0xa8304613, 0xfd469501,
   0x698098d8, 0x8b44f7af, 0xffff5bb1, 0x895cd7be,
   0x6b901122, 0xfd987193, 0xa679438e, 0x49b40821,
   0xf61e2562, 0xc040b340, 0x265e5a51, 0xe9b6c7aa,
   0xd62f105d, 0x02441453, 0xd8a1e681, 0xe7d3fbc8,
   0x21e1cde6, 0xc33707d6, 0xf4d50d87, 0x455a14ed,
   0xa9e3e905, 0xfcefa3f8, 0x676f02d9, 0x8d2a4c8a,
   0xfffa3942, 0x8771f681, 0x6d9d6122, 0xfde5380c,
   0xa4beea44, 0x4bdecfa9, 0xf6bb4b60, 0xbebfbc70,
   0x289b7ec6, 0xeaa127fa, 0xd4ef3085, 0x04881d05,
   0xd9d4d039, 0xe6db99e5, 0x1fa27cf8, 0xc4ac5665,
   0xf4292244, 0x432aff97, 0xab9423a7, 0xfc93a039,
   0x655b59c3, 0x8f0ccc92, 0xffeff47d, 0x85845dd1,
   0x6fa87e4f, 0xfe2ce6e0, 0xa3014314, 0x4e0811a1,
   0xf7537e82, 0xbd3af235, 0x2ad7d2bb, 0xeb86d391]

/-- MD5 per-round left-rotation amounts. -/
def md5S : List Nat :=
  [7, 12, 17, 22, 7, 12, 17, 22, 7, 12, 17, 22, 7, 12, 17, 22,
   5, 9, 14, 20, 5, 9, 14, 20, 5, 9, 14, 20, 5, 9, 14, 20,
   4, 11, 16, 23, 4, 11, 16, 23, 4, 11, 16, 23, 4, 11, 16, 23,
   6, 10, 15, 21, 6, 10, 15, 21, 6, 10, 15, 21, 6, 10, 15, 21]

/-- Merkle–Damgård padding with a little-endian 64-bit bit length. -/
def md5Pad (msg : List Nat) : List Nat :=
  let bitLen := 8 * msg.length
  let padLen := (55 + 64 - msg.length % 64) % 64 + 1
  msg ++ (0x80 :: List.replicate (padLen - 1) 0) ++ leBytes 8 bitLen

/-- Read a byte list as little-endian 32-bit words. -/
def leWords : List Nat → List Nat
  | b0 :: b1 :: b2 :: b3 :: rest =>
    (b0 ||| (b1 <<< 8) ||| (b2 <<< 16) ||| (b3 <<< 24)) :: leWords rest
  | _ => []

def md5Step (m : List Nat) (st : Nat × Nat × Nat × Nat) (i : Nat) : Nat × Nat × Nat × Nat :=
  let (a, b, c, d) := st
  let (f, g) :=
    if i < 16 then ((b &&& c) ||| (not32 b &&& d), i)
    else if i < 32 then ((d &&& b) ||| (not32 d &&& c), (5 * i + 1) % 16)
    else if i < 48 then (b ^^^ c ^^^ d, (3 * i + 5) % 16)
    else (c ^^^ (b ||| not32 d), (7 * i) % 16)
  let tmp := (f + a + md5K.getD i 0 + m.getD g 0) % M32
  (d, (b + rotl32 tmp (md5S.getD i 0)) % M32, b, c)

def md5Block (st : Nat × Nat × Nat × Nat) (block : List Nat) : Nat × Nat × Nat × Nat :=
  let m := leWords block
  let (a, b, c, d) := (List.range 64).foldl (md5Step m) st
  let (a0, b0, c0, d0) := st
  ((a0 + a) % M32, (b0 + b) % M32, (c0 + c) % M32, (d0 + d) % M32)

def md5Bytes (msg : List Nat) : List Nat :=
  let st := (chunks64 (md5Pad msg)).foldl md5Block
    (0x67452301, 0xefcdab89, 0x98badcfe, 0x10325476)
  leBytes 4 st.1 ++ leBytes 4 st.2.1 ++ leBytes 4 st.2.2.1 ++ leBytes 4 st.2.2.2

/-! ## SHA-1 (FIPS 180-4), as used by Node `crypto.createHash('sha1')` -/

/-- Read a byte list as big-endian 32-bit words. -/
def beWords : List Nat → List Nat
  | b0 :: b1 :: b2 :: b3 :: rest =>
    ((b0 <<< 24) ||| (b1 <<< 16) ||| (b2 <<< 8) ||| b3) :: beWords rest
  | _ => []

/-- Merkle–Damgård padding with a big-endian 64-bit bit length. -/
def sha1Pad (msg : List Nat) : List Nat :=
  let bitLen := 8 * msg.length
  let padLen := (55 + 64 - msg.length % 64) % 64 + 1
  msg ++ (0x80 :: List.replicate (padLen - 1) 0) ++ beBytes 8 bitLen

/-- Expand the 16 message words to 80 schedule words. -/
def sha1Schedule (fuel : Nat) (w : List Nat) : List Nat :=
  match fuel with
  | 0 => w
  | fuel + 1 =>
    if w.length ≥ 80 then w
    else
      let n := w.length
      let x := rotl32 ((w.getD (n - 3) 0) ^^^ (w.getD (n - 8) 0) ^^^
                      (w.getD (n - 14) 0) ^^^ (w.getD (n - 16) 0)) 1
      sha1Schedule fuel (w ++ [x])

def sha1Step (w : List Nat) (st : Nat × Nat × Nat × Nat × Nat) (i : Nat) :
    Nat × Nat × Nat × Nat × Nat :=
  let (a, b, c, d, e) := st
  let (f, k) :=
    if i < 20 then ((b &&& c) ||| (not32 b &&& d), 0x5A827999)
    else if i < 40 then (b ^^^ c ^^^ d, 0x6ED9EBA1)
    else if i < 60 then ((b &&& c) ||| (b &&& d) ||| (c &&& d), 0x8F1BBCDC)
    else (b ^^^ c ^^^ d, 0xCA62C1D6)
  let tmp := (rotl32 a 5 + f + e + k + w.getD i 0) % M32
  (tmp, a, rotl32 b 30, c, d)

def sha1Block (st : Nat × Nat × Nat × Nat × Nat) (block : List Nat) :
    Nat × Nat × Nat × Nat × Nat :=
  let w := sha1Schedule 64 (beWords block)
  let (a, b, c, d, e) := (List.range 80).foldl (sha1Step w) st
  let (h0, h1, h2, h3, h4) := st
  ((h0 + a) % M32, (h1 + b) % M32, (h2 + c) % M32, (h3 + d) % M32, (h4 + e) % M32)

def sha1Bytes (msg : List Nat) : List Nat :=
  let st := (chunks64 (sha1Pad msg)).foldl sha1Block
    (0x67452301, 0xEFCDAB89, 0x98BADCFE, 0x10325476, 0xC3D2E1F0)
  beBytes 4 st.1 ++ beBytes 4 st.2.1 ++ beBytes 4 st.2.2.1 ++
    beBytes 4 st.2.2.2.1 ++ beBytes 4 st.2.2.2.2

/-! ## Hexadecimal rendering (`digest('hex')` is lowercase hex) -/

def hexDigitChar (n : Nat) : Char :=
  if n < 10 then Char.ofNat (48 + n) else Char.ofNat (87 + n)

def byteHex (b : Nat) : List Char := [hexDigitChar (b / 16), hexDigitChar (b % 16)]

def bytesToHex (l : List Nat) : String := String.mk (l.flatMap byteHex)

/-- `crypto.createHash('md5').update(s).digest('hex')`. -/
def md5Hex (s : String) : String := bytesToHex (md5Bytes (utf8Encode s))

/-- `crypto.createHash('sha1').update(s).digest('hex')`. -/
def sha1Hex (s : String) : String := bytesToHex (sha1Bytes (utf8Encode s))

/-- Sanity check of the MD5 implementation against the RFC 1321 test suite. -/
theorem md5Hex_vector_empty : md5Hex "" = "d41d8cd98f00b204e9800998ecf8427e" := by decide

/-- Sanity check of the MD5 implementation against the RFC 1321 test suite. -/
theorem md5Hex_vector_abc : md5Hex "abc" = "900150983cd24fb0d6963f7d28e17f72" := by decide

/-- Sanity check of the SHA-1 implementation against the FIPS 180 test vector. -/
theorem sha1Hex_vector_abc : sha1Hex "abc" = "a9993e364706816aba3e25717850c26c9cd0d89d" := by
  decide

/-- Sanity check of the SHA-1 implementation on the empty message. -/
theorem sha1Hex_vector_empty : sha1Hex "" = "da39a3ee5e6b4b0d3255bfef95601890afd80709" := by
  decide

/-! ## Directory trees

A directory listing is modelled as an ordered list of named entries, matching
the order `fs.readdirSync` reports (the traversal-order notion every claim
refers to). `FsTree`/`FsEntries` are a mutual pair so that all functions and
proofs can use plain structural recursion.
-/

mutual
inductive FsTree where
  | file (content : String) : FsTree
  | dir (entries : FsEntries) : FsTree
inductive FsEntries where
  | nil : FsEntries
  | cons (name : String) (t : FsTree) (rest : FsEntries) : FsEntries
end

/-- First entry with the given name, as a filesystem path lookup resolves it. -/
def lookupE : FsEntries → String → Option FsTree
  | .nil, _ => none
  | .cons n t rest, name => if n = name then some t else lookupE rest name

/-- Decides `fs.existsSync(p + "/main") && fs.statSync(p + "/main").isDirectory()`. -/
def isDirEntry : Option FsTree → Bool
  | some (.dir _) => true
  | _ => false

/-! ## SourceLocator — `findSrcMainFolder` (`src/utils/fileUtils.js` lines 9–31)

The function returns an absolute path `dir/src/main`; the model returns the
same path relative to the root it was called on, as a segment list.
-/

mutual
def findSrcMainFolderT : FsTree → Option (List String)
  | .file _ => none
  | .dir es => findSrcMainFolderE es
def findSrcMainFolderE : FsEntries → Option (List String)
  | .nil => none
  | .cons n t rest =>
    match t with
    | .file _ => findSrcMainFolderE rest
    | .dir sub =>
      if n = "src" ∧ isDirEntry (lookupE sub "main") then some [n, "main"]
      else
        match findSrcMainFolderE sub with
        | some p => some (n :: p)
        | none => findSrcMainFolderE rest
end

mutual
/-- Specification-side observer: all the `src`-with-immediate-`main` hits of the
tree, in the traversal order of `findSrcMainFolder` (for each directory entry,
first the hit at the entry itself, then the hits inside it, then the hits in
the later siblings). -/
def srcMainMatchesT : FsTree → List (List String)
  | .file _ => []
  | .dir es => srcMainMatchesE es
def srcMainMatchesE : FsEntries → List (List String)
  | .nil => []
  | .cons n t rest =>
    (match t with
     | .file _ => []
     | .dir sub =>
       (if n = "src" ∧ isDirEntry (lookupE sub "main") then [[n, "main"]] else []) ++
         (srcMainMatchesE sub).map (fun p => n :: p)) ++ srcMainMatchesE rest
end

/-- The tree contains, anywhere, a directory entry named exactly `src` with an
immediate child directory named `main`. -/
inductive HasSrcMain : FsEntries → Prop where
  | here (sub rest) (hm : isDirEntry (lookupE sub "main") = true) :
      HasSrcMain (.cons "src" (.dir sub) rest)
  | inside (n sub rest) (h : HasSrcMain sub) : HasSrcMain (.cons n (.dir sub) rest)
  | later (n t rest) (h : HasSrcMain rest) : HasSrcMain (.cons n t rest)

/-! ## ArtifactPackager — `addDirectoryToZip` (`src/routes/files.js` lines 715–731) -/

/-- The `zipPath ? zipPath + "/" + entry.name : entry.name` step of
`addDirectoryToZip` (an empty `zipPath` is falsy in JavaScript). -/
def zipEntryPath (zipPath name : String) : String :=
  if zipPath = "" then name else zipPath ++ "/" ++ name

mutual
/-- Entries contributed to the archive by one directory entry whose tree is `t`
and whose computed entry path is `p` (the entry is already known not to be the
metadata sidecar). -/
def packT : FsTree → String → List (String × String)
  | .file c, p => [(p, c)]
  | .dir es, p => packE es p
/-- `addDirectoryToZip(zip, dirPath, zipPath)`: the list of `(entryPath, bytes)`
pairs added, in order. -/
def packE : FsEntries → String → List (String × String)
  | .nil, _ => []
  | .cons n t rest, z =>
    (if n = ".project-meta.json" then [] else packT t (zipEntryPath z n)) ++ packE rest z
end

mutual
/-- Specification-side observer: relative paths (as segment lists) and contents
of all files of the tree, in traversal order, skipping every entry named
`.project-meta.json`. -/
def filesOfT : FsTree → List (List String × String)
  | .file c => [([], c)]
  | .dir es => filesOfE es
def filesOfE : FsEntries → List (List String × String)
  | .nil => []
  | .cons n t rest =>
    (if n = ".project-meta.json" then []
     else (filesOfT t).map (fun pc => (n :: pc.1, pc.2))) ++ filesOfE rest
end

mutual
/-- Specification-side observer: relative paths and contents of ALL files of
the tree, in traversal order, with no exclusions. -/
def allFilesOfT : FsTree → List (List String × String)
  | .file c => [([], c)]
  | .dir es => allFilesOfE es
def allFilesOfE : FsEntries → List (List String × String)
  | .nil => []
  | .cons n t rest =>
    (allFilesOfT t).map (fun pc => (n :: pc.1, pc.2)) ++ allFilesOfE rest
end

mutual
/-- Well-formedness of a directory tree: every entry name is nonempty (true of
every real filesystem tree). -/
def wfT : FsTree → Bool
  | .file _ => true
  | .dir es => wfE es
def wfE : FsEntries → Bool
  | .nil => true
  | .cons n t rest => n ≠ "" && wfT t && wfE rest
end

/-- `Array.prototype.join(sep)` on a list of strings. -/
def jsJoin (sep : String) : List String → String
  | [] => ""
  | [x] => x
  | x :: xs => x ++ sep ++ jsJoin sep xs

/-! ## SourceLocator lemmas -/

mutual
theorem findSrcMainFolderT_eq_head :
    ∀ t, findSrcMainFolderT t = (srcMainMatchesT t).head?
  | .file _ => rfl
  | .dir es => findSrcMainFolderE_eq_head es
theorem findSrcMainFolderE_eq_head :
    ∀ es, findSrcMainFolderE es = (srcMainMatchesE es).head?
  | .nil => rfl
  | .cons n t rest => by
    cases t with
    | file c =>
      simpa [findSrcMainFolderE, srcMainMatchesE] using findSrcMainFolderE_eq_head rest
    | dir sub =>
      by_cases h : n = "src" ∧ isDirEntry (lookupE sub "main") = true
      · simp [findSrcMainFolderE, srcMainMatchesE, h]
      · have hsub := findSrcMainFolderE_eq_head sub
        have hrest := findSrcMainFolderE_eq_head rest
        cases hm : srcMainMatchesE sub with
        | nil =>
          simp [findSrcMainFolderE, srcMainMatchesE, h, hsub, hm, hrest]
        | cons p ps =>
          simp [findSrcMainFolderE, srcMainMatchesE, h, hsub, hm]
end

theorem hasSrcMain_of_matches_ne :
    ∀ es : FsEntries, srcMainMatchesE es ≠ [] → HasSrcMain es
  | .cons n t rest => by
    intro hne
    cases t with
    | file c =>
      exact .later n _ rest (hasSrcMain_of_matches_ne rest (by
        simpa [srcMainMatchesE] using hne))
    | dir sub =>
      by_cases h : n = "src" ∧ isDirEntry (lookupE sub "main") = true
      · cases h.1
        exact .here sub rest h.2
      · by_cases hsub : srcMainMatchesE sub = []
        · refine .later n _ rest (hasSrcMain_of_matches_ne rest ?_)
          intro hrest
          exact hne (by simp [srcMainMatchesE, h, hsub, hrest])
        · exact .inside n sub rest (hasSrcMain_of_matches_ne sub hsub)
  | .nil => by intro hne; simp [srcMainMatchesE] at hne

theorem matches_ne_of_hasSrcMain {es : FsEntries} (h : HasSrcMain es) :
    srcMainMatchesE es ≠ [] := by
  induction h with
  | here sub rest hm => simp [srcMainMatchesE, hm]
  | inside n sub rest h ih => simp [srcMainMatchesE]; intro h1 h2 _; exact ih (by simp [h2])
  | later n t rest h ih =>
    cases t with
    | file c => simpa [srcMainMatchesE] using ih
    | dir sub => simp [srcMainMatchesE]; intro _ _ h3; exact ih h3

/-! ## ArtifactPackager lemmas -/

/-- Folding `zipEntryPath` over the remaining path segments: the archive path a
file at relative path `p` below a directory whose accumulated zip path is `z`
receives. -/
def extendPath (z : String) (p : List String) : String := p.foldl zipEntryPath z

mutual
theorem packT_eq_files :
    ∀ t p, packT t p = (filesOfT t).map (fun pc => (extendPath p pc.1, pc.2))
  | .file c, p => by simp [packT, filesOfT, extendPath]
  | .dir es, p => packE_eq_files es p
theorem packE_eq_files :
    ∀ es z, packE es z = (filesOfE es).map (fun pc => (extendPath z pc.1, pc.2))
  | .nil, _ => rfl
  | .cons n t rest, z => by
    by_cases h : n = ".project-meta.json"
    · simp [packE, filesOfE, h, packE_eq_files rest z]
    · have ht := packT_eq_files t (zipEntryPath z n)
      simp [packE, filesOfE, h, packE_eq_files rest z, ht, List.map_map]
      exact fun a b _ => rfl
end

theorem append_ne_empty_left {a : String} (b : String) (h : a ≠ "") : a ++ b ≠ "" := by
  intro hc
  apply h
  have := congrArg String.data hc
  simp only [String.data_append] at this
  rcases List.append_eq_nil.mp this with ⟨h1, _⟩
  cases a
  simp_all

theorem extendPath_eq_jsJoin :
    ∀ (q : List String) (acc : String), acc ≠ "" → extendPath acc q = jsJoin "/" (acc :: q)
  | [], acc, _ => rfl
  | n :: q', acc, hacc => by
    have h1 : extendPath acc (n :: q') = extendPath (acc ++ "/" ++ n) q' := by
      simp [extendPath, zipEntryPath, hacc]
    have h2 := extendPath_eq_jsJoin q' (acc ++ "/" ++ n)
      (append_ne_empty_left n (append_ne_empty_left "/" hacc))
    rw [h1, h2]
    cases q' with
    | nil => simp [jsJoin]
    | cons m r => simp [jsJoin, String.append_assoc]

theorem filesOfE_head_ne_empty :
    ∀ es : FsEntries, wfE es = true → ∀ pc ∈ filesOfE es, ∃ n q, pc.1 = n :: q ∧ n ≠ ""
  | .nil => by simp [filesOfE]
  | .cons n t rest => by
    intro hwf pc hm
    simp only [wfE, Bool.and_eq_true, decide_eq_true_eq] at hwf
    simp only [filesOfE, List.mem_append] at hm
    rcases hm with hm | hm
    · by_cases h : n = ".project-meta.json" <;> simp [h] at hm
      rcases hm with ⟨q, c, hmem, rfl⟩
      exact ⟨n, q, rfl, hwf.1.1⟩
    · exact filesOfE_head_ne_empty rest hwf.2 pc hm

/-- On a well-formed tree, `addDirectoryToZip` started with an empty `zipPath`
produces exactly the non-sidecar files, at forward-slash-joined relative paths. -/
theorem packE_eq_joined_files (es : FsEntries) (hwf : wfE es = true) :
    packE es "" = (filesOfE es).map (fun pc => (jsJoin "/" pc.1, pc.2)) := by
  rw [packE_eq_files]
  refine List.map_congr_left (fun pc hpc => ?_)
  rcases filesOfE_head_ne_empty es hwf pc hpc with ⟨n, q, hq, hne⟩
  have : extendPath "" (n :: q) = extendPath n q := by simp [extendPath, zipEntryPath]
  rw [hq, this, extendPath_eq_jsJoin q n hne]

mutual
theorem filesOfT_no_sidecar :
    ∀ t : FsTree, ∀ pc ∈ filesOfT t, ".project-meta.json" ∉ pc.1
  | .file c => by simp [filesOfT]
  | .dir es => filesOfE_no_sidecar es
theorem filesOfE_no_sidecar :
    ∀ es : FsEntries, ∀ pc ∈ filesOfE es, ".project-meta.json" ∉ pc.1
  | .nil => by simp [filesOfE]
  | .cons n t rest => by
    intro pc hm
    simp only [filesOfE, List.mem_append] at hm
    rcases hm with hm | hm
    · by_cases h : n = ".project-meta.json" <;> simp [h] at hm
      rcases hm with ⟨q, c, hmem, rfl⟩
      have := filesOfT_no_sidecar t (q, c) hmem
      simp only [List.mem_cons, not_or]
      exact ⟨fun hc => h hc.symm, by simpa using this⟩
    · exact filesOfE_no_sidecar rest pc hm
end

/-! ## Claim C3 — SourceLocator -/

/-- C3: `findSrcMainFolder` is a depth-first traversal returning, for the first
directory entry named exactly `src` with an immediate child directory `main`,
that `main` path — formalised as: the result is the head of the list of all
such hits in traversal order (so a tree containing several `src/main`
structures yields only the first one, and the search returns immediately), and
the result is `none` exactly when no such nested structure exists anywhere in
the tree. -/
theorem claim_C3_sourceLocator_first_match (es : FsEntries) :
    findSrcMainFolderE es = (srcMainMatchesE es).head? ∧
    (findSrcMainFolderE es = none ↔ ¬ HasSrcMain es) := by
  refine ⟨findSrcMainFolderE_eq_head es, ?_⟩
  rw [findSrcMainFolderE_eq_head es, List.head?_eq_none_iff]
  constructor
  · intro h hsm
    exact matches_ne_of_hasSrcMain hsm h
  · intro h
    by_contra hne
    exact h (hasSrcMain_of_matches_ne es hne)

/-- Concrete illustration of the first-match behaviour: a tree with both
`a/src/main` and a deeper `a/b/src/main` (with `src` listed before `b`)
locates only `a/src/main`. -/
theorem srcMain_first_match_example :
    findSrcMainFolderE
      (.cons "a"
        (.dir (.cons "src" (.dir (.cons "main" (.dir .nil) .nil))
          (.cons "b" (.dir (.cons "src" (.dir (.cons "main" (.dir .nil) .nil)) .nil))
            .nil)))
        .nil) = some ["a", "src", "main"] := by decide

/-! ## Claim C4 — ArtifactPackager round trip -/

/-- Modelled from the claim's words: the files a round trip is claimed to
reproduce — every file of the source tree except the metadata sidecar itself,
the sidecar being the top-level `.project-meta.json`. -/
def claimRoundTripFiles (es : FsEntries) : List (List String × String) :=
  (allFilesOfE es).filter (fun pc => pc.1 ≠ [".project-meta.json"])

/-- A source tree holding a file `sub/.project-meta.json` inside a nested
subdirectory (not the sidecar) together with an ordinary file `a.txt`. -/
def nestedSidecarTree : FsEntries :=
  .cons "sub" (.dir (.cons ".project-meta.json" (.file "x") .nil))
    (.cons "a.txt" (.file "y") .nil)

/-- C4 counterexample: on a tree containing a nested file named
`.project-meta.json`, the archive produced by `addDirectoryToZip` does NOT
contain every non-sidecar file — the nested `sub/.project-meta.json` is
silently dropped, so packing-then-unpacking does not reproduce every file
excluding (only) the metadata sidecar. -/
theorem claim_C4_counterexample :
    packE nestedSidecarTree "" = [("a.txt", "y")] ∧
    (claimRoundTripFiles nestedSidecarTree).map (fun pc => (jsJoin "/" pc.1, pc.2)) =
      [("sub/.project-meta.json", "x"), ("a.txt", "y")] ∧
    packE nestedSidecarTree "" ≠
      (claimRoundTripFiles nestedSidecarTree).map (fun pc => (jsJoin "/" pc.1, pc.2)) := by
  decide

/-- C4 (amended): packing a well-formed source tree and unpacking the archive
reproduces exactly the files of the tree — each at its forward-slash-joined
relative path and with its exact content — excluding every entry named
`.project-meta.json` at any depth (not only the top-level sidecar); empty
directories contribute no archive entries (in particular a tree without files
packs to the empty archive). -/
theorem claim_C4_pack_round_trip (es : FsEntries) (hwf : wfE es = true) :
    packE es "" = (filesOfE es).map (fun pc => (jsJoin "/" pc.1, pc.2)) ∧
    (filesOfE es = [] → packE es "" = []) :=
  ⟨packE_eq_joined_files es hwf, fun h => by rw [packE_eq_joined_files es hwf, h]; rfl⟩

/-- Sample source tree: `src/main/Foo.java` plus a top-level sidecar. -/
def sampleSrcTree : FsEntries :=
  .cons ".project-meta.json" (.file "meta")
    (.cons "src" (.dir (.cons "main" (.dir (.cons "Foo.java" (.file "class Foo") .nil))
      .nil)) .nil)

theorem claim_C4_pack_round_trip_witness :
    packE sampleSrcTree "" =
      (filesOfE sampleSrcTree).map (fun pc => (jsJoin "/" pc.1, pc.2)) :=
  (claim_C4_pack_round_trip sampleSrcTree (by decide)).1

/-! ## Claim C10 — sidecar-name exclusion at every depth -/

/-- C10: archive packaging excludes every file or directory named
`.project-meta.json` at any depth of the walked tree: no file of the tree
reachable through such a name appears in `filesOf`, and every entry the
produced archive does contain comes from a file whose relative path avoids
the name `.project-meta.json` in all of its components. -/
theorem claim_C10_nested_sidecar_excluded (es : FsEntries) (hwf : wfE es = true) :
    (∀ pc ∈ filesOfE es, ".project-meta.json" ∉ pc.1) ∧
    ∀ e ∈ packE es "", ∃ p, (p, e.2) ∈ filesOfE es ∧ e.1 = jsJoin "/" p ∧
      ".project-meta.json" ∉ p := by
  refine ⟨fun pc h => filesOfE_no_sidecar es pc h, fun e he => ?_⟩
  rw [packE_eq_joined_files es hwf] at he
  rcases List.mem_map.mp he with ⟨pc, hpc, rfl⟩
  exact ⟨pc.1, by simpa using hpc, rfl, filesOfE_no_sidecar es pc hpc⟩

theorem claim_C10_nested_sidecar_excluded_witness :
    ∃ p, (p, "y") ∈ filesOfE nestedSidecarTree ∧ "a.txt" = jsJoin "/" p ∧
      ".project-meta.json" ∉ p :=
  (claim_C10_nested_sidecar_excluded nestedSidecarTree (by decide)).2
    ("a.txt", "y") (by decide)

/-! ## ProjectStore update flow (`POST /api/projects/:name/update`, unnamed part lines 645–796)

The sidecar JSON document is modelled as the parsed record `ProjMeta`
(absent JSON fields are `none`).
-/

structure ProjMeta where
  originalFilename : Option String
  uploadedAt : Option String
  lastUpdated : Option String
  srcMainPath : Option String
  size : Option Nat
  uploadedBy : Option String
  githubUrl : Option String
  githubBranch : Option String
  version : Option String
deriving DecidableEq, Repr

/-- JavaScript `a || b` on null-or-string values (both `null` and `""` are
falsy). -/
def jsOrStr (a b : Option String) : Option String :=
  match a with
  | some s => if s = "" then b else some s
  | none => b

/-- The clear step of the update flow: every directory entry except
`.project-meta.json` is deleted; the function returns what remains. -/
def clearProjectDir : FsEntries → FsEntries
  | .nil => .nil
  | .cons n t rest =>
    if n = ".project-meta.json" then .cons n t (clearProjectDir rest)
    else clearProjectDir rest

/-- The metadata rewrite of the update flow (lines 771–776):
`meta.lastUpdated = now; meta.srcMainPath = ...;`
`meta.version = detectedVersion || meta.version || null`, mutating the
previously stored sidecar object in place. -/
def updateProjectMeta (old : ProjMeta) (now : String) (srcMainRel : Option String)
    (detected : Option String) : ProjMeta :=
  { old with lastUpdated := some now, srcMainPath := srcMainRel,
             version := jsOrStr detected (jsOrStr old.version none) }

theorem clearProjectDir_lookup_sidecar :
    ∀ es, lookupE (clearProjectDir es) ".project-meta.json" =
      lookupE es ".project-meta.json"
  | .nil => rfl
  | .cons n t rest => by
    by_cases h : n = ".project-meta.json" <;>
      simp [clearProjectDir, lookupE, h, clearProjectDir_lookup_sidecar rest]

theorem clearProjectDir_lookup_other :
    ∀ es n, n ≠ ".project-meta.json" → lookupE (clearProjectDir es) n = none
  | .nil, _, _ => rfl
  | .cons m t rest, n, hn => by
    by_cases h : m = ".project-meta.json"
    · have hne : ¬ (".project-meta.json" : String) = n := fun hc => hn hc.symm
      simp [clearProjectDir, lookupE, h, hne, clearProjectDir_lookup_other rest n hn]
    · simp [clearProjectDir, h, clearProjectDir_lookup_other rest n hn]

/-! ## Claim C5 — update flow frame conditions -/

/-- C5: the update flow deletes every entry of the project directory except the
metadata sidecar (the sidecar entry itself survives the clear step unchanged,
every other name resolves to nothing afterwards), and merges the new metadata
over the old sidecar: `lastUpdated` and `srcMainPath` are overwritten, all
fields not in the new metadata are preserved, and in particular when the run
detects no new version the stored version equals the prior (nonempty) version. -/
theorem claim_C5_update_clear_and_merge (entries : FsEntries) (old : ProjMeta)
    (now : String) (srcMainRel : Option String) (detected : Option String) (v : String)
    (hv : old.version = some v) (hvne : v ≠ "") (hnone : detected = none) :
    (updateProjectMeta old now srcMainRel detected).version = some v ∧
    ((updateProjectMeta old now srcMainRel detected).originalFilename,
     (updateProjectMeta old now srcMainRel detected).uploadedAt,
     (updateProjectMeta old now srcMainRel detected).uploadedBy,
     (updateProjectMeta old now srcMainRel detected).githubUrl,
     (updateProjectMeta old now srcMainRel detected).githubBranch,
     (updateProjectMeta old now srcMainRel detected).size) =
      (old.originalFilename, old.uploadedAt, old.uploadedBy,
       old.githubUrl, old.githubBranch, old.size) ∧
    ((updateProjectMeta old now srcMainRel detected).lastUpdated = some now ∧
     (updateProjectMeta old now srcMainRel detected).srcMainPath = srcMainRel) ∧
    lookupE (clearProjectDir entries) ".project-meta.json" =
      lookupE entries ".project-meta.json" ∧
    (∀ n, n ≠ ".project-meta.json" → lookupE (clearProjectDir entries) n = none) := by
  subst hnone
  exact ⟨by simp [updateProjectMeta, jsOrStr, hv, hvne], rfl, ⟨rfl, rfl⟩,
    clearProjectDir_lookup_sidecar entries,
    fun n hn => clearProjectDir_lookup_other entries n hn⟩

/-- Sample stored sidecar metadata for the witnesses. -/
def sampleMeta : ProjMeta :=
  { originalFilename := some "demo.zip", uploadedAt := some "2024-01-01T00:00:00.000Z",
    lastUpdated := some "2024-01-01T00:00:00.000Z", srcMainPath := none,
    size := some 1024, uploadedBy := some "alice",
    githubUrl := some "https://github.com/alice/demo", githubBranch := some "main",
    version := some "1.2.3" }

theorem claim_C5_update_clear_and_merge_witness :
    (updateProjectMeta sampleMeta "2024-02-02T00:00:00.000Z" (some "src/main")
      none).version = some "1.2.3" ∧
    lookupE (clearProjectDir sampleSrcTree) ".project-meta.json" =
      lookupE sampleSrcTree ".project-meta.json" :=
  ⟨(claim_C5_update_clear_and_merge sampleSrcTree sampleMeta "2024-02-02T00:00:00.000Z"
      (some "src/main") none "1.2.3" rfl (by decide) rfl).1,
   (claim_C5_update_clear_and_merge sampleSrcTree sampleMeta "2024-02-02T00:00:00.000Z"
      (some "src/main") none "1.2.3" rfl (by decide) rfl).2.2.2.1⟩

/-! ## Decimal rendering of numbers

Models the JavaScript stringification of the (integral) numbers interpolated
into template literals (`stats.mtimeMs`, date fields). Fuel-based so the
kernel can evaluate it.
-/

def digitChar (n : Nat) : Char := Char.ofNat (48 + n)

def natDigitsAux : Nat → Nat → List Char
  | 0, _ => []
  | fuel + 1, n =>
    if n < 10 then [digitChar n] else natDigitsAux fuel (n / 10) ++ [digitChar (n % 10)]

def natDigits (n : Nat) : List Char := natDigitsAux (n + 1) n

def natStr (n : Nat) : String := String.mk (natDigits n)

/-- Value of a decimal digit string (left inverse of `natDigits`). -/
def digitsVal (l : List Char) : Nat := l.foldl (fun a c => 10 * a + (c.toNat - 48)) 0

theorem digitChar_toNat {k : Nat} (hk : k < 10) : (digitChar k).toNat = 48 + k := by
  interval_cases k <;> decide

theorem digitsVal_append_digit (l : List Char) (c : Char) :
    digitsVal (l ++ [c]) = 10 * digitsVal l + (c.toNat - 48) := by
  simp [digitsVal, List.foldl_append]

theorem natDigitsAux_val : ∀ fuel n, n < 10 ^ fuel → digitsVal (natDigitsAux fuel n) = n
  | 0, n, h => by
    simp at h
    simp [natDigitsAux, digitsVal, h]
  | fuel + 1, n, h => by
    by_cases hn : n < 10
    · simp [natDigitsAux, hn, digitsVal, digitChar_toNat hn]
    · have h1 : n / 10 < 10 ^ fuel := by
        rw [Nat.div_lt_iff_lt_mul (by norm_num)]
        calc n < 10 ^ (fuel + 1) := h
        _ = 10 ^ fuel * 10 := by ring
      have h2 : n % 10 < 10 := Nat.mod_lt _ (by norm_num)
      simp [natDigitsAux, hn, digitsVal_append_digit, natDigitsAux_val fuel (n / 10) h1,
        digitChar_toNat h2]
      omega

theorem digitsVal_natDigits (n : Nat) : digitsVal (natDigits n) = n :=
  natDigitsAux_val (n + 1) n
    (lt_of_lt_of_le (Nat.lt_pow_self (by norm_num) n)
      (Nat.pow_le_pow_right (by norm_num) (Nat.le_succ n)))

theorem natStr_injective {m m' : Nat} (h : natStr m = natStr m') : m = m' := by
  have hd : natDigits m = natDigits m' := congrArg String.data h
  have := digitsVal_natDigits m
  rw [hd, digitsVal_natDigits] at this
  omega

theorem natDigitsAux_length :
    ∀ fuel n w, 1 ≤ w → n < 10 ^ w → (natDigitsAux fuel n).length ≤ w
  | 0, _, _, _, _ => by simp [natDigitsAux]
  | fuel + 1, n, w, hw, h => by
    by_cases hn : n < 10
    · simp [natDigitsAux, hn]; omega
    · have hw2 : 2 ≤ w := by
        by_contra hc
        have hw1 : w = 1 := by omega
        subst hw1
        omega
      have h1 : n / 10 < 10 ^ (w - 1) := by
        rw [Nat.div_lt_iff_lt_mul (by norm_num)]
        calc n < 10 ^ w := h
        _ = 10 ^ (w - 1) * 10 := by
            rw [← Nat.pow_succ]
            congr 1
            omega
      have := natDigitsAux_length fuel (n / 10) (w - 1) (by omega) h1
      simp [natDigitsAux, hn]
      omega

/-- Zero-left-padded fixed-width decimal rendering (the `toISOString` fields). -/
def padDigits (w n : Nat) : List Char :=
  List.replicate (w - (natDigits n).length) '0' ++ natDigits n

theorem padDigits_length {w n : Nat} (hw : 1 ≤ w) (h : n < 10 ^ w) :
    (padDigits w n).length = w := by
  have := natDigitsAux_length (n + 1) n w hw h
  simp [padDigits, natDigits] at this ⊢
  omega

theorem natDigitsAux_digits :
    ∀ fuel n, ∀ c ∈ natDigitsAux fuel n, ∃ k, k < 10 ∧ c = digitChar k
  | 0, _ => by simp [natDigitsAux]
  | fuel + 1, n => by
    by_cases hn : n < 10
    · simp [natDigitsAux, hn]
      exact ⟨n, hn, rfl⟩
    · intro c hc
      simp [natDigitsAux, hn] at hc
      rcases hc with hc | hc
      · exact natDigitsAux_digits fuel (n / 10) c hc
      · exact ⟨n % 10, Nat.mod_lt _ (by norm_num), hc⟩

theorem padDigits_digits {w n : Nat} : ∀ c ∈ padDigits w n, ∃ k, k < 10 ∧ c = digitChar k := by
  intro c hc
  rcases List.mem_append.mp hc with hc | hc
  · exact ⟨0, by norm_num, (List.eq_of_mem_replicate hc).trans rfl⟩
  · exact natDigitsAux_digits (n + 1) n c hc

theorem digitChar_isDigit {k : Nat} (hk : k < 10) : (digitChar k).isDigit = true := by
  interval_cases k <;> decide

/-! ## MetadataSynthesizer — timestamps and templates
(`src/routes/files.js` lines 644–678) -/

/-- A broken-down instant, as `Date` exposes it in UTC. -/
structure JsDate where
  year : Nat
  month : Nat
  day : Nat
  hour : Nat
  minute : Nat
  second : Nat
  millis : Nat
deriving DecidableEq, Repr

/-- Model of `Date.prototype.toISOString` (`YYYY-MM-DDTHH:mm:ss.sssZ`) for
four-digit years. -/
def jsToISOString (d : JsDate) : String :=
  String.mk (padDigits 4 d.year ++ '-' :: padDigits 2 d.month ++ '-' :: padDigits 2 d.day ++
    'T' :: padDigits 2 d.hour ++ ':' :: padDigits 2 d.minute ++ ':' :: padDigits 2 d.second ++
    '.' :: padDigits 3 d.millis ++ ['Z'])

/-- The character class of `.replace(/[-:T.Z]/g, '')`. -/
def tsStripped (c : Char) : Bool := c = '-' || c = ':' || c = 'T' || c = '.' || c = 'Z'

/-- The `lastUpdated` value:
`new Date().toISOString().replace(/[-:T.Z]/g, '').substring(0, 14)`. -/
def compactTimestamp (d : JsDate) : String :=
  String.mk (((jsToISOString d).data.filter (fun c => !tsStripped c)).take 14)

/-- `groupId || config.repository.groupId` and `version || '1.0.0'`:
JavaScript `||` on strings (only the empty string is falsy). -/
def jsOrS (a b : String) : String := if a = "" then b else a

structure RepoConfig where
  repoGroupId : String
deriving DecidableEq, Repr

/-- `serveMavenMetadata` (lines 644–660): the exact template literal. -/
def serveMavenMetadata (cfg : RepoConfig) (artifactId groupId version : String)
    (now : JsDate) : String :=
  "<?xml version=\"1.0\" encoding=\"UTF-8\"?>\n<metadata>\n  <groupId>" ++
    jsOrS groupId cfg.repoGroupId ++ "</groupId>\n  <artifactId>" ++ artifactId ++
    "</artifactId>\n  <versioning>\n    <latest>" ++ jsOrS version "1.0.0" ++
    "</latest>\n    <release>" ++ jsOrS version "1.0.0" ++
    "</release>\n    <versions>\n      <version>" ++ jsOrS version "1.0.0" ++
    "</version>\n    </versions>\n    <lastUpdated>" ++ compactTimestamp now ++
    "</lastUpdated>\n  </versioning>\n</metadata>"

/-- `servePom` (lines 665–678): the exact template literal. -/
def servePom (cfg : RepoConfig) (groupId artifactId version : String) : String :=
  "<?xml version=\"1.0\" encoding=\"UTF-8\"?>\n<project xmlns=\"http://maven.apache.org/POM/4.0.0\"\n         xmlns:xsi=\"http://www.w3.org/2001/XMLSchema-instance\"\n         xsi:schemaLocation=\"http://maven.apache.org/POM/4.0.0 http://maven.apache.org/xsd/maven-4.0.0.xsd\">\n  <modelVersion>4.0.0</modelVersion>\n  <groupId>" ++
    jsOrS groupId cfg.repoGroupId ++ "</groupId>\n  <artifactId>" ++ artifactId ++
    "</artifactId>\n  <version>" ++ version ++
    "</version>\n  <packaging>jar</packaging>\n</project>"

/-- `serveChecksum` (lines 736–755), after the project-existence check:
hex digest of `artifactId + "-" + stats.mtimeMs`, SHA-1 when the requested
filename ends in `.sha1`, MD5 otherwise. -/
def endsWithStr (s suffix : String) : Bool := suffix.data.isSuffixOf s.data

def serveChecksum (artifactId : String) (mtimeMs : Nat) (filename : String) : String :=
  let data := artifactId ++ "-" ++ natStr mtimeMs
  if endsWithStr filename ".sha1" then sha1Hex data else md5Hex data

/-! ## RepositoryDispatcher — `GET /*` (`src/routes/files.js` lines 562–639) -/

structure Coord where
  groupId : String
  artifactId : String
  version : String
  filename : String
deriving DecidableEq, Repr

/-- The coordinate extraction of lines 580–584: last segment is the filename,
then version, then artifactId; all earlier segments joined with `.` form the
groupId. -/
def parseCoords (parts : List String) : Coord :=
  { filename := parts.getD (parts.length - 1) "",
    version := parts.getD (parts.length - 2) "",
    artifactId := parts.getD (parts.length - 3) "",
    groupId := jsJoin "." (parts.take (parts.length - 3)) }

/-- `String.prototype.split(sep)` for a single-character separator. -/
def splitChar (sep : Char) : List Char → List (List Char)
  | [] => [[]]
  | c :: rest =>
    let r := splitChar sep rest
    if c = sep then [] :: r
    else
      match r with
      | h :: t => (c :: h) :: t
      | [] => [[c]]

def jsSplit (s : String) (sep : Char) : List String := (splitChar sep s.data).map String.mk

/-- The segments of `req.path.substring(1).split('/')`. -/
def requestParts (path : String) : List String := jsSplit (String.mk path.data.tail) '/'

def startsWithApi (path : String) : Bool := "/api/".data.isPrefixOf path.data

inductive RespBody where
  | text (s : String) : RespBody
  | xml (s : String) : RespBody
  | archive (entries : List (String × String)) : RespBody
  | fileBytes (content : String) : RespBody
deriving DecidableEq, Repr

structure Resp where
  status : Nat
  body : RespBody
deriving DecidableEq, Repr

/-- A project directory as the dispatcher sees it: its tree, its
`stats.mtimeMs`, and the parsed sidecar (`none` when missing or corrupt). -/
structure Project where
  entries : FsEntries
  mtimeMs : Nat
  meta : Option ProjMeta

/-- `meta.srcMainPath || ''` guarded by sidecar existence (lines 604–612). -/
def metaSrcMain (p : Project) : String :=
  match p.meta with
  | some m =>
    match m.srcMainPath with
    | some s => s
    | none => ""
  | none => ""

/-- The projects directory as a named listing (first match wins, like a
filesystem lookup). -/
def lookupStore : List (String × Project) → String → Option Project
  | [], _ => none
  | (n, p) :: rest, name => if n = name then some p else lookupStore rest name

/-- Resolve a relative segment path below a directory, as the chain
`path.join` + `fs.existsSync` does: `none` when nothing exists there. -/
def resolveAt : FsEntries → List String → Option FsTree
  | es, [] => some (.dir es)
  | es, seg :: rest =>
    match lookupE es seg with
    | some (.dir sub) => resolveAt sub rest
    | some (.file c) => if rest = [] then some (.file c) else none
    | none => none

/-- The `GET /*` handler: `none` models `next()` (the request falls through to
other routes); otherwise the produced response.  A `res.sendFile` on a
directory path is modelled as the 500 it produces. -/
def dispatch (store : List (String × Project)) (cfg : RepoConfig) (now : JsDate)
    (path : String) : Option Resp :=
  if path = "/" ∨ startsWithApi path then none
  else
    let parts := requestParts path
    if parts.length < 4 then some ⟨404, .text "Not found"⟩
    else
      let c := parseCoords parts
      if c.filename = "maven-metadata.xml" then
        some ⟨200, .xml (serveMavenMetadata cfg c.artifactId c.groupId c.version now)⟩
      else if endsWithStr c.filename ".sha1" || endsWithStr c.filename ".md5" then
        match lookupStore store c.artifactId with
        | none => some ⟨404, .text "Not found"⟩
        | some p => some ⟨200, .text (serveChecksum c.artifactId p.mtimeMs c.filename)⟩
      else
        match lookupStore store c.artifactId with
        | none => some ⟨404, .text "Artifact not found"⟩
        | some p =>
          let srcMain := metaSrcMain p
          if endsWithStr c.filename ".jar" || endsWithStr c.filename ".zip" then
            match resolveAt p.entries (if srcMain = "" then [] else jsSplit srcMain '/') with
            | some (.dir es) => some ⟨200, .archive (packE es "")⟩
            | some (.file _) => some ⟨500, .text "Failed to create archive"⟩
            | none => some ⟨404, .text "Source not found"⟩
          else if endsWithStr c.filename ".pom" then
            some ⟨200, .xml (servePom cfg c.groupId c.artifactId c.version)⟩
          else
            match lookupE p.entries c.filename with
            | some (.file content) => some ⟨200, .fileBytes content⟩
            | some (.dir _) => some ⟨500, .text "EISDIR"⟩
            | none =>
              if srcMain ≠ "" then
                match resolveAt p.entries (jsSplit srcMain '/') with
                | some (.dir es) =>
                  match lookupE es c.filename with
                  | some (.file content) => some ⟨200, .fileBytes content⟩
                  | some (.dir _) => some ⟨500, .text "EISDIR"⟩
                  | none => some ⟨404, .text "File not found"⟩
                | _ => some ⟨404, .text "File not found"⟩
              else some ⟨404, .text "File not found"⟩

/-! ## Dispatcher lemmas -/

theorem dispatch_badPath (store : List (String × Project)) (cfg : RepoConfig) (now : JsDate)
    (path : String) (h1 : ¬ (path = "/" ∨ startsWithApi path = true))
    (h2 : (requestParts path).length < 4) :
    dispatch store cfg now path = some ⟨404, .text "Not found"⟩ := by
  simp [dispatch, h1, h2]

theorem dispatch_metadata (store : List (String × Project)) (cfg : RepoConfig) (now : JsDate)
    (path : String) (h1 : ¬ (path = "/" ∨ startsWithApi path = true))
    (h2 : ¬ (requestParts path).length < 4)
    (h3 : (parseCoords (requestParts path)).filename = "maven-metadata.xml") :
    dispatch store cfg now path =
      some ⟨200, .xml (serveMavenMetadata cfg (parseCoords (requestParts path)).artifactId
        (parseCoords (requestParts path)).groupId
        (parseCoords (requestParts path)).version now)⟩ := by
  simp [dispatch, h1, h2, h3]

theorem checksum_suffix_not_metadata {f : String}
    (h : endsWithStr f ".sha1" = true ∨ endsWithStr f ".md5" = true) :
    f ≠ "maven-metadata.xml" := by
  intro hc
  subst hc
  rcases h with h | h <;> exact absurd h (by decide)

theorem dispatch_checksum_absent (store : List (String × Project)) (cfg : RepoConfig)
    (now : JsDate) (path : String) (h1 : ¬ (path = "/" ∨ startsWithApi path = true))
    (h2 : ¬ (requestParts path).length < 4)
    (h3 : endsWithStr (parseCoords (requestParts path)).filename ".sha1" = true ∨
      endsWithStr (parseCoords (requestParts path)).filename ".md5" = true)
    (h4 : lookupStore store (parseCoords (requestParts path)).artifactId = none) :
    dispatch store cfg now path = some ⟨404, .text "Not found"⟩ := by
  have hb : (endsWithStr (parseCoords (requestParts path)).filename ".sha1" ||
      endsWithStr (parseCoords (requestParts path)).filename ".md5") = true := by
    rcases h3 with h3 | h3 <;> simp [h3]
  simp [dispatch, h1, h2, checksum_suffix_not_metadata h3, hb, h4]

theorem dispatch_checksum_found (store : List (String × Project)) (cfg : RepoConfig)
    (now : JsDate) (path : String) (p : Project)
    (h1 : ¬ (path = "/" ∨ startsWithApi path = true))
    (h2 : ¬ (requestParts path).length < 4)
    (h3 : endsWithStr (parseCoords (requestParts path)).filename ".sha1" = true ∨
      endsWithStr (parseCoords (requestParts path)).filename ".md5" = true)
    (h4 : lookupStore store (parseCoords (requestParts path)).artifactId = some p) :
    dispatch store cfg now path =
      some ⟨200, .text (serveChecksum (parseCoords (requestParts path)).artifactId
        p.mtimeMs (parseCoords (requestParts path)).filename)⟩ := by
  have hb : (endsWithStr (parseCoords (requestParts path)).filename ".sha1" ||
      endsWithStr (parseCoords (requestParts path)).filename ".md5") = true := by
    rcases h3 with h3 | h3 <;> simp [h3]
  simp [dispatch, h1, h2, checksum_suffix_not_metadata h3, hb, h4]

theorem parseCoords_append (gs : List String) (a v f : String) (_h : gs ≠ []) :
    parseCoords (gs ++ [a, v, f]) =
      { groupId := jsJoin "." gs, artifactId := a, version := v, filename := f } := by
  have hlen : (gs ++ [a, v, f]).length = gs.length + 3 := by simp
  have e1 : (gs ++ [a, v, f]).getD (gs.length + 2) "" = f := by
    simp [List.getD, List.getElem?_append_right (by omega : gs.length ≤ gs.length + 2)]
  have e2 : (gs ++ [a, v, f]).getD (gs.length + 1) "" = v := by
    simp [List.getD, List.getElem?_append_right (by omega : gs.length ≤ gs.length + 1)]
  have e3 : (gs ++ [a, v, f]).getD gs.length "" = a := by
    simp [List.getD, List.getElem?_append_right (le_refl gs.length)]
  have e4 : (gs ++ [a, v, f]).take gs.length = gs := List.take_left gs [a, v, f]
  unfold parseCoords
  rw [hlen]
  have i1 : gs.length + 3 - 1 = gs.length + 2 := by omega
  have i2 : gs.length + 3 - 2 = gs.length + 1 := by omega
  have i3 : gs.length + 3 - 3 = gs.length := by omega
  rw [i1, i2, i3, e1, e2, e3, e4]

/-! ## Claim C2 — CoordinateParser and the bad-path response -/

/-- C2: for every request path with at least 4 slash-separated segments the
parser assigns the last segment to the filename, the second-to-last to the
version, the third-to-last to the artifactId, and joins all preceding segments
(one or more) with `.` into the groupId; for every handled request path with
fewer than 4 segments the dispatcher answers 404 with the body `Not found` —
byte-identical to the response for a checksum request naming an artifact that
does not exist, so a bad path is indistinguishable from a not-found artifact. -/
theorem claim_C2_parse_and_bad_path :
    (∀ (gs : List String) (a v f : String), gs ≠ [] →
      parseCoords (gs ++ [a, v, f]) =
        { groupId := jsJoin "." gs, artifactId := a, version := v, filename := f }) ∧
    (∀ store cfg now path, ¬ (path = "/" ∨ startsWithApi path = true) →
      (requestParts path).length < 4 →
      dispatch store cfg now path = some ⟨404, .text "Not found"⟩) ∧
    (∀ store cfg now path, ¬ (path = "/" ∨ startsWithApi path = true) →
      ¬ (requestParts path).length < 4 →
      (endsWithStr (parseCoords (requestParts path)).filename ".sha1" = true ∨
        endsWithStr (parseCoords (requestParts path)).filename ".md5" = true) →
      lookupStore store (parseCoords (requestParts path)).artifactId = none →
      dispatch store cfg now path = some ⟨404, .text "Not found"⟩) :=
  ⟨parseCoords_append,
   fun store cfg now path h1 h2 => dispatch_badPath store cfg now path h1 h2,
   fun store cfg now path h1 h2 h3 h4 =>
     dispatch_checksum_absent store cfg now path h1 h2 h3 h4⟩

/-- Sample date used by concrete dispatcher witnesses. -/
def sampleDate : JsDate :=
  { year := 2024, month := 3, day := 15, hour := 10, minute := 30, second := 45,
    millis := 123 }

theorem claim_C2_parse_and_bad_path_witness :
    parseCoords (["com", "example"] ++ ["demo", "1.2.3", "demo-1.2.3.jar"]) =
      { groupId := "com.example", artifactId := "demo", version := "1.2.3",
        filename := "demo-1.2.3.jar" } ∧
    dispatch [] { repoGroupId := "com.tinymvn" } sampleDate "/too/short" =
      some ⟨404, .text "Not found"⟩ ∧
    dispatch [] { repoGroupId := "com.tinymvn" } sampleDate
      "/com/example/ghost/1.0.0/ghost-1.0.0.jar.sha1" = some ⟨404, .text "Not found"⟩ :=
  ⟨by
    have := claim_C2_parse_and_bad_path.1 ["com", "example"] "demo" "1.2.3"
      "demo-1.2.3.jar" (by decide)
    simpa using this,
   claim_C2_parse_and_bad_path.2.1 [] { repoGroupId := "com.tinymvn" } sampleDate
     "/too/short" (by decide) (by decide),
   claim_C2_parse_and_bad_path.2.2 [] { repoGroupId := "com.tinymvn" } sampleDate
     "/com/example/ghost/1.0.0/ghost-1.0.0.jar.sha1" (by decide) (by decide)
     (Or.inl (by decide)) rfl⟩

/-! ## Claim C9 — metadata synthesis never consults the project store -/

/-- C9: a request whose last segment is exactly `maven-metadata.xml` is
answered by synthesising metadata XML without any project lookup — the
response is the same for every project store and always has status 200, so
such requests never 404 for an unknown artifact; checksum requests, in
contrast, do check project existence and answer 404 when the artifact is
absent. -/
theorem claim_C9_metadata_skips_store :
    (∀ store store' cfg now path, ¬ (path = "/" ∨ startsWithApi path = true) →
      ¬ (requestParts path).length < 4 →
      (parseCoords (requestParts path)).filename = "maven-metadata.xml" →
      dispatch store cfg now path = dispatch store' cfg now path ∧
      dispatch store cfg now path =
        some ⟨200, .xml (serveMavenMetadata cfg (parseCoords (requestParts path)).artifactId
          (parseCoords (requestParts path)).groupId
          (parseCoords (requestParts path)).version now)⟩) ∧
    (∀ store cfg now path, ¬ (path = "/" ∨ startsWithApi path = true) →
      ¬ (requestParts path).length < 4 →
      (endsWithStr (parseCoords (requestParts path)).filename ".sha1" = true ∨
        endsWithStr (parseCoords (requestParts path)).filename ".md5" = true) →
      lookupStore store (parseCoords (requestParts path)).artifactId = none →
      dispatch store cfg now path = some ⟨404, .text "Not found"⟩) :=
  ⟨fun store store' cfg now path h1 h2 h3 =>
    ⟨(dispatch_metadata store cfg now path h1 h2 h3).trans
      (dispatch_metadata store' cfg now path h1 h2 h3).symm,
     dispatch_metadata store cfg now path h1 h2 h3⟩,
   fun store cfg now path h1 h2 h3 h4 =>
     dispatch_checksum_absent store cfg now path h1 h2 h3 h4⟩

theorem claim_C9_metadata_skips_store_witness :
    dispatch [] { repoGroupId := "com.tinymvn" } sampleDate
      "/com/example/ghost/9.9.9/maven-metadata.xml" =
      some ⟨200, .xml (serveMavenMetadata { repoGroupId := "com.tinymvn" } "ghost"
        "com.example" "9.9.9" sampleDate)⟩ := by
  have := (claim_C9_metadata_skips_store.1 [] [] { repoGroupId := "com.tinymvn" }
    sampleDate "/com/example/ghost/9.9.9/maven-metadata.xml" (by decide) (by decide)
    (by decide)).2
  simpa using this

/-! ## Timestamp and template lemmas for the metadata XML -/

theorem strExt {s t : String} (h : s.data = t.data) : s = t := by
  cases s
  cases t
  cases h
  rfl

theorem tsStripped_digitChar {k : Nat} (hk : k < 10) : tsStripped (digitChar k) = false := by
  interval_cases k <;> decide

theorem filter_padDigits (w n : Nat) :
    (padDigits w n).filter (fun c => !tsStripped c) = padDigits w n := by
  refine List.filter_eq_self.mpr (fun c hc => ?_)
  rcases padDigits_digits c hc with ⟨k, hk, rfl⟩
  simp [tsStripped_digitChar hk]

theorem compactTimestamp_format (d : JsDate) (hy : d.year < 10000) (hmo : d.month < 100)
    (hd : d.day < 100) (hh : d.hour < 100) (hmi : d.minute < 100) (hs : d.second < 100) :
    compactTimestamp d = String.mk (padDigits 4 d.year ++ padDigits 2 d.month ++
      padDigits 2 d.day ++ padDigits 2 d.hour ++ padDigits 2 d.minute ++
      padDigits 2 d.second) := by
  have hfilter : ((jsToISOString d).data.filter (fun c => !tsStripped c)) =
      padDigits 4 d.year ++ (padDigits 2 d.month ++ (padDigits 2 d.day ++
        (padDigits 2 d.hour ++ (padDigits 2 d.minute ++ (padDigits 2 d.second ++
          padDigits 3 d.millis))))) := by
    show (padDigits 4 d.year ++ '-' :: padDigits 2 d.month ++ '-' :: padDigits 2 d.day ++
      'T' :: padDigits 2 d.hour ++ ':' :: padDigits 2 d.minute ++ ':' :: padDigits 2 d.second ++
      '.' :: padDigits 3 d.millis ++ ['Z']).filter (fun c => !tsStripped c) = _
    simp only [List.append_assoc, List.filter_append, List.filter_cons, filter_padDigits]
    norm_num [tsStripped]
  have hy4 : d.year < 10 ^ 4 := lt_of_lt_of_eq hy (by norm_num)
  have hmo2 : d.month < 10 ^ 2 := lt_of_lt_of_eq hmo (by norm_num)
  have hd2 : d.day < 10 ^ 2 := lt_of_lt_of_eq hd (by norm_num)
  have hh2 : d.hour < 10 ^ 2 := lt_of_lt_of_eq hh (by norm_num)
  have hmi2 : d.minute < 10 ^ 2 := lt_of_lt_of_eq hmi (by norm_num)
  have hs2 : d.second < 10 ^ 2 := lt_of_lt_of_eq hs (by norm_num)
  have hlen : (padDigits 4 d.year ++ (padDigits 2 d.month ++ (padDigits 2 d.day ++
      (padDigits 2 d.hour ++ (padDigits 2 d.minute ++ padDigits 2 d.second))))).length =
      14 := by
    simp [padDigits_length (by norm_num) hy4, padDigits_length (by norm_num) hmo2,
      padDigits_length (by norm_num) hd2, padDigits_length (by norm_num) hh2,
      padDigits_length (by norm_num) hmi2, padDigits_length (by norm_num) hs2]
  unfold compactTimestamp
  rw [hfilter]
  congr 1
  have hassoc : padDigits 4 d.year ++ (padDigits 2 d.month ++ (padDigits 2 d.day ++
      (padDigits 2 d.hour ++ (padDigits 2 d.minute ++ (padDigits 2 d.second ++
        padDigits 3 d.millis))))) =
      (padDigits 4 d.year ++ (padDigits 2 d.month ++ (padDigits 2 d.day ++
        (padDigits 2 d.hour ++ (padDigits 2 d.minute ++ padDigits 2 d.second))))) ++
        padDigits 3 d.millis := by
    simp [List.append_assoc]
  rw [hassoc, List.take_left' hlen]
  simp [List.append_assoc]

/-! ## Claim C7 — synthesized Maven metadata XML -/

/-- C7: the generated metadata XML carries the requested version (or the
literal default `1.0.0` when the version coordinate is empty/unresolved) in its
`latest` element, its `release` element, and the single entry of its `versions`
list, plus a `lastUpdated` field that is the compact 14-character
`YYYYMMDDHHMMSS` rendering of the current instant; and the dispatcher answers
`/com/example/demo/1.2.3/maven-metadata.xml` with exactly this document for
coordinates `com.example:demo:1.2.3` (hence containing `<latest>1.2.3</latest>`
and `<release>1.2.3</release>`). -/
theorem claim_C7_metadata_xml (cfg : RepoConfig) (g a v : String) (d : JsDate)
    (hy : d.year < 10000) (hmo : d.month < 100) (hd : d.day < 100) (hh : d.hour < 100)
    (hmi : d.minute < 100) (hs : d.second < 100) :
    (serveMavenMetadata cfg a g v d =
      ("<?xml version=\"1.0\" encoding=\"UTF-8\"?>\n<metadata>\n  <groupId>" ++
        jsOrS g cfg.repoGroupId ++ "</groupId>\n  <artifactId>" ++ a ++
        "</artifactId>\n  <versioning>\n    ") ++
      ("<latest>" ++ (if v = "" then "1.0.0" else v) ++ "</latest>") ++ "\n    " ++
      ("<release>" ++ (if v = "" then "1.0.0" else v) ++ "</release>") ++ "\n    " ++
      ("<versions>\n      <version>" ++ (if v = "" then "1.0.0" else v) ++
        "</version>\n    </versions>") ++ "\n    " ++
      ("<lastUpdated>" ++ compactTimestamp d ++ "</lastUpdated>") ++
      "\n  </versioning>\n</metadata>") ∧
    compactTimestamp d = String.mk (padDigits 4 d.year ++ padDigits 2 d.month ++
      padDigits 2 d.day ++ padDigits 2 d.hour ++ padDigits 2 d.minute ++
      padDigits 2 d.second) ∧
    (compactTimestamp d).length = 14 ∧
    (∀ c ∈ (compactTimestamp d).data, c.isDigit = true) ∧
    (∀ store, dispatch store cfg d "/com/example/demo/1.2.3/maven-metadata.xml" =
      some ⟨200, .xml (serveMavenMetadata cfg "demo" "com.example" "1.2.3" d)⟩) := by
  have hfmt := compactTimestamp_format d hy hmo hd hh hmi hs
  refine ⟨?_, hfmt, ?_, ?_, ?_⟩
  · refine strExt ?_
    simp only [serveMavenMetadata, jsOrS, String.data_append, List.append_assoc,
      List.cons_append, List.nil_append]
  · rw [hfmt]
    show (padDigits 4 d.year ++ padDigits 2 d.month ++ padDigits 2 d.day ++
      padDigits 2 d.hour ++ padDigits 2 d.minute ++ padDigits 2 d.second).length = 14
    have hy4 : d.year < 10 ^ 4 := lt_of_lt_of_eq hy (by norm_num)
    have hmo2 : d.month < 10 ^ 2 := lt_of_lt_of_eq hmo (by norm_num)
    have hd2 : d.day < 10 ^ 2 := lt_of_lt_of_eq hd (by norm_num)
    have hh2 : d.hour < 10 ^ 2 := lt_of_lt_of_eq hh (by norm_num)
    have hmi2 : d.minute < 10 ^ 2 := lt_of_lt_of_eq hmi (by norm_num)
    have hs2 : d.second < 10 ^ 2 := lt_of_lt_of_eq hs (by norm_num)
    simp [padDigits_length (by norm_num) hy4, padDigits_length (by norm_num) hmo2,
      padDigits_length (by norm_num) hd2, padDigits_length (by norm_num) hh2,
      padDigits_length (by norm_num) hmi2, padDigits_length (by norm_num) hs2]
  · rw [hfmt]
    intro c hc
    show c.isDigit = true
    have hc2 : c ∈ padDigits 4 d.year ++ padDigits 2 d.month ++ padDigits 2 d.day ++
        padDigits 2 d.hour ++ padDigits 2 d.minute ++ padDigits 2 d.second := hc
    simp only [List.append_assoc, List.mem_append] at hc2
    rcases hc2 with hc2 | hc2 | hc2 | hc2 | hc2 | hc2 <;>
      (rcases padDigits_digits c hc2 with ⟨k, hk, rfl⟩; exact digitChar_isDigit hk)
  · intro store
    have hm := dispatch_metadata store cfg d "/com/example/demo/1.2.3/maven-metadata.xml"
      (by decide) (by decide) (by decide)
    rw [hm,
      (by decide : (parseCoords (requestParts
        "/com/example/demo/1.2.3/maven-metadata.xml")).artifactId = "demo"),
      (by decide : (parseCoords (requestParts
        "/com/example/demo/1.2.3/maven-metadata.xml")).groupId = "com.example"),
      (by decide : (parseCoords (requestParts
        "/com/example/demo/1.2.3/maven-metadata.xml")).version = "1.2.3")]

theorem claim_C7_metadata_xml_witness :
    compactTimestamp sampleDate = "20240315103045" ∧
    (compactTimestamp sampleDate).length = 14 :=
  ⟨((claim_C7_metadata_xml { repoGroupId := "com.tinymvn" } "com.example" "demo" "1.2.3"
      sampleDate (by decide) (by decide) (by decide) (by decide) (by decide)
      (by decide)).2.1).trans (by decide),
   (claim_C7_metadata_xml { repoGroupId := "com.tinymvn" } "com.example" "demo" "1.2.3"
      sampleDate (by decide) (by decide) (by decide) (by decide) (by decide)
      (by decide)).2.2.1⟩

/-! ## Hexadecimal digest lemmas -/

/-- Lowercase hexadecimal digit, as `digest('hex')` emits. -/
def isLowerHexChar (c : Char) : Bool :=
  (48 ≤ c.toNat && c.toNat ≤ 57) || (97 ≤ c.toNat && c.toNat ≤ 102)

theorem hexDigitChar_isLowerHex {n : Nat} (h : n < 16) :
    isLowerHexChar (hexDigitChar n) = true := by
  interval_cases n <;> decide

theorem leBytes_lt (w x : Nat) : ∀ b ∈ leBytes w x, b < 256 := by
  intro b hb
  simp [leBytes] at hb
  rcases hb with ⟨i, _, rfl⟩
  exact lt_of_le_of_lt Nat.and_le_right (by norm_num)

theorem beBytes_lt (w x : Nat) : ∀ b ∈ beBytes w x, b < 256 := by
  intro b hb
  simp [beBytes] at hb
  rcases hb with ⟨i, _, rfl⟩
  exact lt_of_le_of_lt Nat.and_le_right (by norm_num)

theorem bytesToHex_lower (l : List Nat) (h : ∀ b ∈ l, b < 256) :
    ∀ c ∈ (bytesToHex l).data, isLowerHexChar c = true := by
  intro c hc
  simp [bytesToHex, byteHex] at hc
  rcases hc with ⟨b, hb, hc | hc⟩
  · subst hc
    exact hexDigitChar_isLowerHex (Nat.div_lt_of_lt_mul (by simpa using h b hb))
  · subst hc
    exact hexDigitChar_isLowerHex (Nat.mod_lt _ (by norm_num))

theorem md5Hex_lower (s : String) : ∀ c ∈ (md5Hex s).data, isLowerHexChar c = true := by
  refine bytesToHex_lower _ (fun b hb => ?_)
  simp only [md5Bytes, List.mem_append] at hb
  rcases hb with ((hb | hb) | hb) | hb <;> exact leBytes_lt 4 _ b hb

theorem sha1Hex_lower (s : String) : ∀ c ∈ (sha1Hex s).data, isLowerHexChar c = true := by
  refine bytesToHex_lower _ (fun b hb => ?_)
  simp only [sha1Bytes, List.mem_append] at hb
  rcases hb with (((hb | hb) | hb) | hb) | hb <;> exact beBytes_lt 4 _ b hb

/-! ## Claim C6 — checksum synthesis -/

/-- C6: for an existing project, a checksum request answers with the lowercase
hex digest of `"{projectName}-{modificationTimeInMillis}"`, using SHA-1 when
the requested filename ends in `.sha1` and MD5 otherwise; the digest is a
function of the project name and modification time only (so two requests
against an unmodified project yield the identical digest), and distinct
modification times always produce distinct hashed input strings (the digest
changes with the modification time, the hashed preimage being injective in
it); the dispatcher returns exactly this digest for a checksum request on an
existing project. -/
theorem claim_C6_checksum_digest (name : String) (m m' : Nat) (fname : String) :
    (endsWithStr fname ".sha1" = true →
      serveChecksum name m fname = sha1Hex (name ++ "-" ++ natStr m)) ∧
    (endsWithStr fname ".sha1" = false →
      serveChecksum name m fname = md5Hex (name ++ "-" ++ natStr m)) ∧
    (∀ c ∈ (serveChecksum name m fname).data, isLowerHexChar c = true) ∧
    (m = m' → serveChecksum name m fname = serveChecksum name m' fname) ∧
    (m ≠ m' → name ++ "-" ++ natStr m ≠ name ++ "-" ++ natStr m') ∧
    (∀ store cfg now path (p : Project),
      ¬ (path = "/" ∨ startsWithApi path = true) →
      ¬ (requestParts path).length < 4 →
      (endsWithStr (parseCoords (requestParts path)).filename ".sha1" = true ∨
        endsWithStr (parseCoords (requestParts path)).filename ".md5" = true) →
      lookupStore store (parseCoords (requestParts path)).artifactId = some p →
      dispatch store cfg now path =
        some ⟨200, .text (serveChecksum (parseCoords (requestParts path)).artifactId
          p.mtimeMs (parseCoords (requestParts path)).filename)⟩) := by
  refine ⟨fun h => by simp [serveChecksum, h], fun h => by simp [serveChecksum, h],
    ?_, fun h => by rw [h], ?_, ?_⟩
  · intro c hc
    unfold serveChecksum at hc
    by_cases h : endsWithStr fname ".sha1" = true
    · simp only [h, if_true] at hc
      exact sha1Hex_lower _ c hc
    · simp only [eq_false_of_ne_true h, if_false] at hc
      exact md5Hex_lower _ c hc
  · intro hne hc
    apply hne
    apply natStr_injective
    apply strExt
    have h2 := congrArg String.data hc
    simp only [String.data_append, List.append_assoc, List.cons_append,
      List.nil_append] at h2
    have h3 := List.append_cancel_left h2
    simpa using h3
  · intro store cfg now path p h1 h2 h3 h4
    exact dispatch_checksum_found store cfg now path p h1 h2 h3 h4

theorem claim_C6_checksum_digest_witness :
    serveChecksum "demo" 1712000000000 "demo-1.0.0.jar.sha1" =
      sha1Hex ("demo" ++ "-" ++ natStr 1712000000000) ∧
    "demo" ++ "-" ++ natStr 1712000000000 ≠ "demo" ++ "-" ++ natStr 1712000000001 :=
  ⟨(claim_C6_checksum_digest "demo" 1712000000000 1712000000001
      "demo-1.0.0.jar.sha1").1 (by decide),
   (claim_C6_checksum_digest "demo" 1712000000000 1712000000001
      "demo-1.0.0.jar.sha1").2.2.2.2.1 (by decide)⟩

/-! ## VersionResolver — `extractVersionFromFilename`
(unnamed source part, lines 279–300)

The five regular expressions are implemented as explicit matchers with the
exact JavaScript semantics: greedy `\d+` runs, leftmost match for the embedded
patterns, end anchoring for the trailing ones, and a case-insensitive `v`.
-/

/-- Strip `/\.(zip|tar\.gz|tgz)$/i` (the only extensions the code removes). -/
def stripArchiveExt (l : List Char) : List Char :=
  let low := l.map Char.toLower
  if (".tar.gz".data).isSuffixOf low then l.take (l.length - 7)
  else if (".zip".data).isSuffixOf low then l.take (l.length - 4)
  else if (".tgz".data).isSuffixOf low then l.take (l.length - 4)
  else l

/-- Greedy `\d+` at the head: the maximal digit run, which must be nonempty. -/
def parseRun (l : List Char) : Option (List Char × List Char) :=
  let a := l.takeWhile Char.isDigit
  if a = [] then none else some (a, l.dropWhile Char.isDigit)

def expectDot : List Char → Option (List Char)
  | c :: r => if c = '.' then some r else none
  | [] => none

/-- Greedy `\d+\.\d+` at the head; returns (capture, rest). -/
def parseNum2 (l : List Char) : Option (List Char × List Char) :=
  match parseRun l with
  | none => none
  | some (a, r1) =>
    match expectDot r1 with
    | none => none
    | some r2 =>
      match parseRun r2 with
      | none => none
      | some (b, r3) => some (a ++ '.' :: b, r3)

/-- Greedy `\d+\.\d+\.\d+` at the head; returns (capture, rest). -/
def parseNum3 (l : List Char) : Option (List Char × List Char) :=
  match parseRun l with
  | none => none
  | some (a, r1) =>
    match expectDot r1 with
    | none => none
    | some r2 =>
      match parseNum2 r2 with
      | none => none
      | some (bc, r5) => some (a ++ '.' :: bc, r5)

/-- Leftmost occurrence of `v` (case-insensitive) followed by a `p`-match. -/
def scanVNum (p : List Char → Option (List Char × List Char)) :
    List Char → Option (List Char)
  | [] => none
  | ch :: rest =>
    if ch = 'v' ∨ ch = 'V' then
      match p rest with
      | some (cap, _) => some cap
      | none => scanVNum p rest
    else scanVNum p rest

/-- Leftmost position at which `p` matches. -/
def scanNum (p : List Char → Option (List Char × List Char)) :
    List Char → Option (List Char)
  | [] => none
  | c :: rest =>
    match p (c :: rest) with
    | some (cap, _) => some cap
    | none => scanNum p rest

/-- After the (reversed) digit part of a trailing pattern: an optional
case-insensitive `v` followed by a separator from `seps`. -/
def sepOk (seps : List Char) : List Char → Bool
  | s :: rest =>
    if s ∈ seps then true
    else if s = 'v' ∨ s = 'V' then
      match rest with
      | s2 :: _ => s2 ∈ seps
      | [] => false
    else false
  | [] => false

/-- End-anchored matching of `[-_]v?(num)$`, implemented by parsing the
reversed string: the reversed digit part first, then the optional `v` and the
separator. -/
def matchTrailingWith (p : List Char → Option (List Char × List Char))
    (seps : List Char) (l : List Char) : Option (List Char) :=
  match p l.reverse with
  | some (capRev, r5) => if sepOk seps r5 then some capRev.reverse else none
  | none => none

/-- `[-_]v?(\d+\.\d+\.\d+)$` (with `seps` the allowed separator set). -/
def matchTrailing3 (seps : List Char) (l : List Char) : Option (List Char) :=
  matchTrailingWith parseNum3 seps l

/-- `[-_]v?(\d+\.\d+)$` (with `seps` the allowed separator set). -/
def matchTrailing2 (seps : List Char) (l : List Char) : Option (List Char) :=
  matchTrailingWith parseNum2 seps l

/-- The for-loop over the five patterns: first match wins. -/
def firstPatternMatch (seps : List Char) (base : List Char) : Option (List Char) :=
  match matchTrailing3 seps base with
  | some v => some v
  | none =>
    match matchTrailing2 seps base with
    | some v => some v
    | none =>
      match scanVNum parseNum3 base with
      | some v => some v
      | none =>
        match scanVNum parseNum2 base with
        | some v => some v
        | none => scanNum parseNum3 base

/-- The separators of the code's trailing patterns: `[-_]`. -/
def stdSeps : List Char := ['-', '_']

/-- `extractVersionFromFilename(filename)`. -/
def extractVersionFromFilename (filename : String) : Option String :=
  (firstPatternMatch stdSeps (stripArchiveExt filename.data)).map String.mk

/-- Modelled from the claim's words (not the code): strip "the extension"
(everything from the last dot on, for any extension), and allow only `-` as
the separator of the trailing patterns (`trailing -v?X.Y.Z`, `-v?X.Y`). -/
def claimStripExt (l : List Char) : List Char :=
  if '.' ∈ l then ((l.reverse.dropWhile (fun c => c ≠ '.')).drop 1).reverse else l

/-- Modelled from the claim's words (not the code): the claim's version of
filename-based extraction. -/
def claimExtractVersion (filename : String) : Option String :=
  (firstPatternMatch ['-'] (claimStripExt filename.data)).map String.mk

/-! ## VersionResolver — `extractVersionFromGradleProperties`
(unnamed source part, lines 303–332) -/

/-- JavaScript `\s` inside a line (no `\n` can occur inside a split line). -/
def isJsWs (c : Char) : Bool :=
  c = ' ' || c = '\t' || c = '\r' || c = Char.ofNat 11 || c = Char.ofNat 12

def isJsWsNl (c : Char) : Bool := isJsWs c || c = '\n'

/-- `String.prototype.trim()`. -/
def jsTrim (l : List Char) : List Char :=
  ((l.dropWhile isJsWsNl).reverse.dropWhile isJsWsNl).reverse

/-- The first capture of `/^version\s*=\s*(.+)$/m` against a single line:
after `version`, optional whitespace, `=`, greedy whitespace, then a nonempty
remainder (when the remainder is empty the greedy `\s*` backtracks one
whitespace character into the capture). -/
def versionLineCapture (line : List Char) : Option (List Char) :=
  if ("version".data).isPrefixOf line then
    let r1 := (line.drop 7).dropWhile isJsWs
    match r1 with
    | '=' :: r2 =>
      let ws2 := r2.takeWhile isJsWs
      let r3 := r2.dropWhile isJsWs
      if r3 ≠ [] then some r3
      else if ws2 ≠ [] then some [ws2.getLastD ' ']
      else none
    | _ => none
  else none

/-- `\w` or `.`, the character class of the version-suffix validation. -/
def wordDotChar (c : Char) : Bool := c.isAlphanum || c = '_' || c = '.'

/-- `/^\d+\.\d+(\.\d+)?(-[\w.]+)?$/`. -/
def validVersionStr (l : List Char) : Bool :=
  match parseNum2 l with
  | none => false
  | some (_, rest) =>
    match rest with
    | [] => true
    | '.' :: r =>
      let c := r.takeWhile Char.isDigit
      let r2 := r.dropWhile Char.isDigit
      if c = [] then false
      else
        match r2 with
        | [] => true
        | '-' :: r3 => !r3.isEmpty && r3.all wordDotChar
        | _ => false
    | '-' :: r3 => !r3.isEmpty && r3.all wordDotChar
    | _ => false

def startsWithDot (n : String) : Bool :=
  match n.data with
  | '.' :: _ => true
  | _ => false

/-- `extractVersionFromGradleProperties(dir)`: first `gradle.properties` file
in traversal order whose first `version = ...` line carries a valid version
(hidden directories skipped; an invalid or missing version line lets the
search continue with later entries). -/
def extractVersionFromGradlePropertiesE : FsEntries → Option String
  | .nil => none
  | .cons n t rest =>
    match t with
    | .file content =>
      if n = "gradle.properties" then
        match (splitChar '\n' content.data).findSome? versionLineCapture with
        | some cap =>
          if validVersionStr (jsTrim cap) then some (String.mk (jsTrim cap))
          else extractVersionFromGradlePropertiesE rest
        | none => extractVersionFromGradlePropertiesE rest
      else extractVersionFromGradlePropertiesE rest
    | .dir sub =>
      if startsWithDot n then extractVersionFromGradlePropertiesE rest
      else
        match extractVersionFromGradlePropertiesE sub with
        | some v => some v
        | none => extractVersionFromGradlePropertiesE rest

/-! ## VersionResolver — `fetchGitHubVersion` tag handling
(unnamed source part, lines 335–391; pure given the fetched tag list) -/

/-- `/^v?\d+\.\d+(\.\d+)?$/` (the leading `v` is lowercase only, as in the
code). -/
def validTagName (l : List Char) : Bool :=
  let l2 := match l with
    | c :: r => if c = 'v' then r else l
    | [] => l
  match parseNum2 l2 with
  | none => false
  | some (_, rest) =>
    match rest with
    | [] => true
    | '.' :: r => !r.isEmpty && r.all Char.isDigit
    | _ => false

/-- `name.replace(/^v/, '')`. -/
def stripLeadingV (s : String) : String :=
  match s.data with
  | c :: r => if c = 'v' then String.mk r else s
  | [] => s

/-- Numeric value of one dot-separated component (`Number(...)` on the digit
strings the tag filter admits). -/
def verTuple (s : String) : List Nat := (splitChar '.' s.data).map digitsVal

/-- Descending numeric tuple comparison (missing components are 0): `true`
when `a` sorts strictly before `b` under the code's comparator. Fuel-based so
the kernel can evaluate it. -/
def tupleGtAux : Nat → List Nat → List Nat → Bool
  | 0, _, _ => false
  | _, [], [] => false
  | fuel + 1, x :: xs, [] => if 0 < x then true else tupleGtAux fuel xs []
  | fuel + 1, [], y :: ys => if 0 < y then false else tupleGtAux fuel [] ys
  | fuel + 1, x :: xs, y :: ys =>
    if y < x then true else if x < y then false else tupleGtAux fuel xs ys

def tupleGt (a b : List Nat) : Bool := tupleGtAux (a.length + b.length + 1) a b

/-- Stable insertion (Node's `Array.prototype.sort` is stable): an element is
inserted after every earlier element that sorts strictly before it. -/
def insertByLt (lt : α → α → Bool) (x : α) : List α → List α
  | [] => [x]
  | y :: ys => if lt y x then y :: insertByLt lt x ys else x :: y :: ys

def sortByLt (lt : α → α → Bool) : List α → List α
  | [] => []
  | x :: xs => insertByLt lt x (sortByLt lt xs)

/-- The pure part of `fetchGitHubVersion`: filter tag names by the version
pattern, strip a leading `v`, sort descending by numeric tuple, return the top
entry (or `none`). -/
def fetchGitHubVersionPure (tagNames : List String) : Option String :=
  let versions := (tagNames.filter (fun n => validTagName n.data)).map stripLeadingV
  (sortByLt (fun a b => tupleGt (verTuple a) (verTuple b)) versions).head?

/-! ## The two version-resolution flows -/

/-- The upload flow (unnamed source part, lines 219–223): the filename pattern
first, then `gradle.properties`; upstream tags are never consulted. -/
def uploadDetectVersion (originalFilename : String) (src : FsEntries) : Option String :=
  jsOrStr (extractVersionFromFilename originalFilename)
    (extractVersionFromGradlePropertiesE src)

/-- The clone and update flows (unnamed source part, lines 594–598 and
765–769): the upstream tag list first, then `gradle.properties`; the original
filename is never consulted. -/
def cloneDetectVersion (tagNames : List String) (src : FsEntries) : Option String :=
  jsOrStr (fetchGitHubVersionPure tagNames) (extractVersionFromGradlePropertiesE src)

/-! ## Pattern relations: declarative regular-expression semantics

`patternRel seps i base v` states, declaratively, that the `i`-th pattern of
`extractVersionFromFilename` matches `base` with capture `v` (greedy capture:
a run is never followed by a further digit).
-/

/-- `l` does not begin with a `p`-character (the greedy-maximality boundary). -/
def headNotSat (p : Char → Bool) : List Char → Bool
  | [] => true
  | c :: _ => !p c

/-- A nonempty all-digit run (`\d+`). -/
def DigitRun (l : List Char) : Prop := l ≠ [] ∧ ∀ c ∈ l, Char.isDigit c = true

/-- `\d+\.\d+`. -/
def IsNum2 (v : List Char) : Prop := ∃ a b, v = a ++ '.' :: b ∧ DigitRun a ∧ DigitRun b

/-- `\d+\.\d+\.\d+`. -/
def IsNum3 (v : List Char) : Prop :=
  ∃ a b c, v = a ++ '.' :: (b ++ '.' :: c) ∧ DigitRun a ∧ DigitRun b ∧ DigitRun c

/-- `ov` is an optional case-insensitive `v`. -/
def OptV (ov : List Char) : Prop := ov = [] ∨ ov = ['v'] ∨ ov = ['V']

/-- The trailing patterns `[-_]v?(num)$`: some separator from `seps`, an
optional `v`, then the capture, anchored at the end. -/
def RelTrailing (seps : List Char) (Num : List Char → Prop) (l v : List Char) : Prop :=
  ∃ pre s ov, l = pre ++ s :: (ov ++ v) ∧ s ∈ seps ∧ OptV ov ∧ Num v

/-- The embedded patterns `v(num)`: a case-insensitive `v` anywhere followed
by the capture, greedy (no digit right after). -/
def RelEmbV (Num : List Char → Prop) (l v : List Char) : Prop :=
  ∃ pre ch post, l = pre ++ ch :: (v ++ post) ∧ (ch = 'v' ∨ ch = 'V') ∧ Num v ∧
    headNotSat Char.isDigit post = true

/-- The embedded pattern `(num)` anywhere, greedy. -/
def RelEmb (Num : List Char → Prop) (l v : List Char) : Prop :=
  ∃ pre post, l = pre ++ (v ++ post) ∧ Num v ∧ headNotSat Char.isDigit post = true

/-- The code's pattern list, in priority order. -/
def patternRel (seps : List Char) : Nat → List Char → List Char → Prop
  | 0 => RelTrailing seps IsNum3
  | 1 => RelTrailing seps IsNum2
  | 2 => RelEmbV IsNum3
  | 3 => RelEmbV IsNum2
  | 4 => RelEmb IsNum3
  | _ => fun _ _ => False

def patternMatch (seps : List Char) : Nat → List Char → Option (List Char)
  | 0 => matchTrailing3 seps
  | 1 => matchTrailing2 seps
  | 2 => scanVNum parseNum3
  | 3 => scanVNum parseNum2
  | 4 => scanNum parseNum3
  | _ => fun _ => none

/-! ### takeWhile/dropWhile boundary lemmas -/

theorem headNotSat_dropWhile (p : Char → Bool) :
    ∀ l : List Char, headNotSat p (l.dropWhile p) = true
  | [] => rfl
  | c :: r => by
    by_cases hc : p c
    · simpa [List.dropWhile_cons, hc] using headNotSat_dropWhile p r
    · simp [List.dropWhile_cons, hc, headNotSat]

theorem takeWhile_dropWhile_append {p : Char → Bool} :
    ∀ (xs ys : List Char), (∀ c ∈ xs, p c = true) → headNotSat p ys = true →
      (xs ++ ys).takeWhile p = xs ∧ (xs ++ ys).dropWhile p = ys
  | [], ys, _, hys => by
    cases ys with
    | nil => simp
    | cons c r =>
      have hc : p c = false := by simpa [headNotSat] using hys
      simp [List.takeWhile_cons, List.dropWhile_cons, hc]
  | x :: xs, ys, hxs, hys => by
    have hx : p x = true := hxs x (by simp)
    have ih := takeWhile_dropWhile_append xs ys (fun c hc => hxs c (by simp [hc])) hys
    simp [List.takeWhile_cons, List.dropWhile_cons, hx, ih.1, ih.2]

/-! ### Soundness and completeness of the digit-sequence parsers -/

theorem parseRun_sound {l a r : List Char} (h : parseRun l = some (a, r)) :
    DigitRun a ∧ l = a ++ r ∧ headNotSat Char.isDigit r = true := by
  unfold parseRun at h
  by_cases ht : l.takeWhile Char.isDigit = []
  · simp [ht] at h
  · rw [if_neg ht] at h
    simp only [Option.some.injEq, Prod.mk.injEq] at h
    obtain ⟨rfl, rfl⟩ := h
    exact ⟨⟨ht, fun c hc => List.mem_takeWhile_imp hc⟩,
      (List.takeWhile_append_dropWhile Char.isDigit l).symm, headNotSat_dropWhile _ l⟩

theorem parseRun_complete {a r : List Char} (ha : DigitRun a)
    (hr : headNotSat Char.isDigit r = true) : parseRun (a ++ r) = some (a, r) := by
  have h := takeWhile_dropWhile_append a r ha.2 hr
  simp [parseRun, h.1, h.2, ha.1]

theorem expectDot_sound {r1 r2 : List Char} (h : expectDot r1 = some r2) :
    r1 = '.' :: r2 := by
  cases r1 with
  | nil => simp [expectDot] at h
  | cons c r =>
    simp only [expectDot] at h
    by_cases hc : c = '.'
    · rw [if_pos hc] at h
      simp only [Option.some.injEq] at h
      rw [hc, h]
    · rw [if_neg hc] at h
      exact absurd h (by simp)

theorem parseNum2_sound {l v rest : List Char} (h : parseNum2 l = some (v, rest)) :
    IsNum2 v ∧ l = v ++ rest ∧ headNotSat Char.isDigit rest = true := by
  unfold parseNum2 at h
  cases hp : parseRun l with
  | none => rw [hp] at h; simp at h
  | some ar =>
    obtain ⟨a, r1⟩ := ar
    rw [hp] at h
    simp only [] at h
    cases hd : expectDot r1 with
    | none => rw [hd] at h; simp at h
    | some r2 =>
      rw [hd] at h
      simp only [] at h
      cases hq : parseRun r2 with
      | none => rw [hq] at h; simp at h
      | some br =>
        obtain ⟨b, r3⟩ := br
        rw [hq] at h
        simp only [Option.some.injEq, Prod.mk.injEq] at h
        obtain ⟨rfl, rfl⟩ := h
        rcases parseRun_sound hp with ⟨ha, hl, _⟩
        rcases parseRun_sound hq with ⟨hb, hr2, hr3⟩
        refine ⟨⟨a, b, rfl, ha, hb⟩, ?_, hr3⟩
        rw [hl, expectDot_sound hd, hr2]
        simp

theorem parseNum2_complete {v rest : List Char} (hv : IsNum2 v)
    (hr : headNotSat Char.isDigit rest = true) : parseNum2 (v ++ rest) = some (v, rest) := by
  obtain ⟨a, b, rfl, ha, hb⟩ := hv
  have h1 : (a ++ '.' :: b) ++ rest = a ++ ('.' :: (b ++ rest)) := by simp
  rw [h1]
  unfold parseNum2
  rw [parseRun_complete ha (by simp [headNotSat])]
  simp only []
  rw [show expectDot ('.' :: (b ++ rest)) = some (b ++ rest) from by simp [expectDot]]
  simp only []
  rw [parseRun_complete hb hr]

theorem parseNum3_sound {l v rest : List Char} (h : parseNum3 l = some (v, rest)) :
    IsNum3 v ∧ l = v ++ rest ∧ headNotSat Char.isDigit rest = true := by
  unfold parseNum3 at h
  cases hp : parseRun l with
  | none => rw [hp] at h; simp at h
  | some ar =>
    obtain ⟨a, r1⟩ := ar
    rw [hp] at h
    simp only [] at h
    cases hd : expectDot r1 with
    | none => rw [hd] at h; simp at h
    | some r2 =>
      rw [hd] at h
      simp only [] at h
      cases hq : parseNum2 r2 with
      | none => rw [hq] at h; simp at h
      | some br =>
        obtain ⟨bc, r5⟩ := br
        rw [hq] at h
        simp only [Option.some.injEq, Prod.mk.injEq] at h
        obtain ⟨rfl, rfl⟩ := h
        rcases parseRun_sound hp with ⟨ha, hl, _⟩
        rcases parseNum2_sound hq with ⟨⟨b, c, rfl, hbb, hcc⟩, hr2, hr5⟩
        refine ⟨⟨a, b, c, rfl, ha, hbb, hcc⟩, ?_, hr5⟩
        rw [hl, expectDot_sound hd, hr2]
        simp

theorem parseNum3_complete {v rest : List Char} (hv : IsNum3 v)
    (hr : headNotSat Char.isDigit rest = true) : parseNum3 (v ++ rest) = some (v, rest) := by
  obtain ⟨a, b, c, rfl, ha, hb, hc⟩ := hv
  have h1 : (a ++ '.' :: (b ++ '.' :: c)) ++ rest =
      a ++ ('.' :: ((b ++ '.' :: c) ++ rest)) := by simp
  rw [h1]
  unfold parseNum3
  rw [parseRun_complete ha (by simp [headNotSat])]
  simp only []
  rw [show expectDot ('.' :: ((b ++ '.' :: c) ++ rest)) = some ((b ++ '.' :: c) ++ rest)
    from by simp [expectDot]]
  simp only []
  rw [parseNum2_complete ⟨b, c, rfl, hb, hc⟩ hr]

/-! ### Soundness and completeness of the embedded-pattern scanners -/

theorem scanVNum_sound {Num : List Char → Prop}
    {p : List Char → Option (List Char × List Char)}
    (psound : ∀ l cap rest, p l = some (cap, rest) →
      Num cap ∧ l = cap ++ rest ∧ headNotSat Char.isDigit rest = true) :
    ∀ l v, scanVNum p l = some v → RelEmbV Num l v
  | [], v, h => by simp [scanVNum] at h
  | ch :: rest, v, h => by
    unfold scanVNum at h
    by_cases hch : ch = 'v' ∨ ch = 'V'
    · rw [if_pos hch] at h
      cases hp : p rest with
      | some capr =>
        obtain ⟨cap, r⟩ := capr
        rw [hp] at h
        simp only [Option.some.injEq] at h
        subst h
        rcases psound rest cap r hp with ⟨hnum, hrest, hhead⟩
        exact ⟨[], ch, r, by simp [hrest], hch, hnum, hhead⟩
      | none =>
        rw [hp] at h
        rcases scanVNum_sound psound rest v h with ⟨pre, ch2, post, hl, hch2, hnum, hpost⟩
        exact ⟨ch :: pre, ch2, post, by simp [hl], hch2, hnum, hpost⟩
    · rw [if_neg hch] at h
      rcases scanVNum_sound psound rest v h with ⟨pre, ch2, post, hl, hch2, hnum, hpost⟩
      exact ⟨ch :: pre, ch2, post, by simp [hl], hch2, hnum, hpost⟩

theorem scanVNum_isSome {Num : List Char → Prop}
    {p : List Char → Option (List Char × List Char)}
    (pcomp : ∀ v rest, Num v → headNotSat Char.isDigit rest = true →
      p (v ++ rest) = some (v, rest)) :
    ∀ (pre : List Char) (ch : Char) (v post : List Char), (ch = 'v' ∨ ch = 'V') →
      Num v → headNotSat Char.isDigit post = true →
      (scanVNum p (pre ++ ch :: (v ++ post))).isSome = true
  | [], ch, v, post, hch, hnum, hpost => by
    simp only [List.nil_append]
    unfold scanVNum
    rw [if_pos hch, pcomp v post hnum hpost]
    rfl
  | c :: pre, ch, v, post, hch, hnum, hpost => by
    have ih := scanVNum_isSome pcomp pre ch v post hch hnum hpost
    show (scanVNum p (c :: (pre ++ ch :: (v ++ post)))).isSome = true
    unfold scanVNum
    by_cases hc : c = 'v' ∨ c = 'V'
    · rw [if_pos hc]
      cases hp : p (pre ++ ch :: (v ++ post)) with
      | some capr => obtain ⟨cap, r⟩ := capr; simp
      | none => simpa using ih
    · rw [if_neg hc]
      exact ih

theorem scanNum_sound {Num : List Char → Prop}
    {p : List Char → Option (List Char × List Char)}
    (psound : ∀ l cap rest, p l = some (cap, rest) →
      Num cap ∧ l = cap ++ rest ∧ headNotSat Char.isDigit rest = true) :
    ∀ l v, scanNum p l = some v → RelEmb Num l v
  | [], v, h => by simp [scanNum] at h
  | c :: rest, v, h => by
    unfold scanNum at h
    cases hp : p (c :: rest) with
    | some capr =>
      obtain ⟨cap, r⟩ := capr
      rw [hp] at h
      simp only [Option.some.injEq] at h
      subst h
      rcases psound (c :: rest) cap r hp with ⟨hnum, hrest, hhead⟩
      exact ⟨[], r, by simp [hrest], hnum, hhead⟩
    | none =>
      rw [hp] at h
      rcases scanNum_sound psound rest v h with ⟨pre, post, hl, hnum, hpost⟩
      exact ⟨c :: pre, post, by simp [hl], hnum, hpost⟩

theorem scanNum_isSome {Num : List Char → Prop}
    {p : List Char → Option (List Char × List Char)}
    (pcomp : ∀ v rest, Num v → headNotSat Char.isDigit rest = true →
      p (v ++ rest) = some (v, rest))
    (pnonempty : ∀ v, Num v → v ≠ []) :
    ∀ (pre : List Char) (v post : List Char), Num v →
      headNotSat Char.isDigit post = true →
      (scanNum p (pre ++ (v ++ post))).isSome = true
  | [], v, post, hnum, hpost => by
    cases hv : v with
    | nil => exact absurd hv (pnonempty v hnum)
    | cons c r =>
      have hp := pcomp v post hnum hpost
      rw [hv] at hp
      have hp2 : p (c :: (r ++ post)) = some (c :: r, post) := by simpa using hp
      subst hv
      simp only [List.nil_append, List.cons_append]
      unfold scanNum
      rw [hp2]
      rfl
  | c :: pre, v, post, hnum, hpost => by
    have ih := scanNum_isSome pcomp pnonempty pre v post hnum hpost
    show (scanNum p (c :: (pre ++ (v ++ post)))).isSome = true
    unfold scanNum
    cases hp : p (c :: (pre ++ (v ++ post))) with
    | some capr => obtain ⟨cap, r⟩ := capr; simp
    | none => simpa using ih

/-! ### Soundness and completeness of the trailing matchers -/

theorem DigitRun_reverse {l : List Char} (h : DigitRun l) : DigitRun l.reverse :=
  ⟨by simpa using h.1, fun c hc => h.2 c (List.mem_reverse.mp hc)⟩

theorem IsNum3_reverse {v : List Char} (h : IsNum3 v) : IsNum3 v.reverse := by
  obtain ⟨a, b, c, rfl, ha, hb, hc⟩ := h
  refine ⟨c.reverse, b.reverse, a.reverse, ?_, DigitRun_reverse hc, DigitRun_reverse hb,
    DigitRun_reverse ha⟩
  simp [List.reverse_append, List.append_assoc]

theorem IsNum2_reverse {v : List Char} (h : IsNum2 v) : IsNum2 v.reverse := by
  obtain ⟨a, b, rfl, ha, hb⟩ := h
  refine ⟨b.reverse, a.reverse, ?_, DigitRun_reverse hb, DigitRun_reverse ha⟩
  simp [List.reverse_append, List.append_assoc]

theorem sepOk_sound {seps r5 : List Char} (h : sepOk seps r5 = true) :
    (∃ s rest, r5 = s :: rest ∧ s ∈ seps) ∨
      (∃ ch s rest, r5 = ch :: s :: rest ∧ (ch = 'v' ∨ ch = 'V') ∧ s ∈ seps) := by
  cases r5 with
  | nil => simp [sepOk] at h
  | cons s rest =>
    simp only [sepOk] at h
    by_cases h1 : s ∈ seps
    · exact Or.inl ⟨s, rest, rfl, h1⟩
    · rw [if_neg (by simpa using h1)] at h
      by_cases h2 : s = 'v' ∨ s = 'V'
      · rw [if_pos h2] at h
        cases rest with
        | nil => simp at h
        | cons s2 rest2 =>
          simp only [decide_eq_true_eq] at h
          exact Or.inr ⟨s, s2, rest2, rfl, h2, h⟩
      · rw [if_neg h2] at h
        exact absurd h (by simp)

theorem sepOk_complete_nov {seps : List Char} {s : Char} {rest : List Char}
    (h : s ∈ seps) : sepOk seps (s :: rest) = true := by
  simp [sepOk, h]

theorem sepOk_complete_v {seps : List Char} {ch s : Char} {rest : List Char}
    (hch : ch = 'v' ∨ ch = 'V') (h : s ∈ seps) : sepOk seps (ch :: s :: rest) = true := by
  by_cases hc : ch ∈ seps
  · simp [sepOk, hc]
  · rcases hch with rfl | rfl <;> simp [sepOk, hc, h]

theorem matchTrailingWith_sound {Num : List Char → Prop}
    {p : List Char → Option (List Char × List Char)}
    (psound : ∀ l cap rest, p l = some (cap, rest) →
      Num cap ∧ l = cap ++ rest ∧ headNotSat Char.isDigit rest = true)
    (hnumrev : ∀ x, Num x → Num x.reverse)
    {seps l v : List Char} (h : matchTrailingWith p seps l = some v) :
    RelTrailing seps Num l v := by
  unfold matchTrailingWith at h
  cases hp : p l.reverse with
  | none => rw [hp] at h; simp at h
  | some capr =>
    obtain ⟨capRev, r5⟩ := capr
    rw [hp] at h
    simp only [] at h
    by_cases hs : sepOk seps r5 = true
    · rw [if_pos hs] at h
      simp only [Option.some.injEq] at h
      subst h
      rcases psound _ _ _ hp with ⟨hnum, hsplit, _⟩
      have hl : l = r5.reverse ++ capRev.reverse := by
        have h2 := congrArg List.reverse hsplit
        simpa [List.reverse_append] using h2
      rcases sepOk_sound hs with ⟨s, rest, rfl, hmem⟩ | ⟨ch, s, rest, rfl, hch, hmem⟩
      · refine ⟨rest.reverse, s, [], ?_, hmem, Or.inl rfl, hnumrev _ hnum⟩
        rw [hl]
        simp [List.append_assoc]
      · refine ⟨rest.reverse, s, [ch], ?_, hmem, ?_, hnumrev _ hnum⟩
        · rw [hl]
          simp [List.append_assoc]
        · rcases hch with rfl | rfl
          · exact Or.inr (Or.inl rfl)
          · exact Or.inr (Or.inr rfl)
    · rw [if_neg hs] at h
      simp at h

theorem matchTrailingWith_isSome {Num : List Char → Prop}
    {p : List Char → Option (List Char × List Char)}
    (pcomp : ∀ v rest, Num v → headNotSat Char.isDigit rest = true →
      p (v ++ rest) = some (v, rest))
    (hnumrev : ∀ x, Num x → Num x.reverse)
    {seps l v : List Char} (hseps : ∀ s ∈ seps, Char.isDigit s = false)
    (hrel : RelTrailing seps Num l v) : (matchTrailingWith p seps l).isSome = true := by
  obtain ⟨pre, s, ov, rfl, hmem, hov, hnum⟩ := hrel
  have hrev : (pre ++ s :: (ov ++ v)).reverse =
      v.reverse ++ (ov.reverse ++ s :: pre.reverse) := by
    simp [List.reverse_append, List.append_assoc]
  have hvnotdigit : Char.isDigit 'v' = false := by decide
  have hVnotdigit : Char.isDigit 'V' = false := by decide
  have hhead : headNotSat Char.isDigit (ov.reverse ++ s :: pre.reverse) = true := by
    rcases hov with rfl | rfl | rfl
    · simpa [headNotSat] using hseps s hmem
    · simp [headNotSat, hvnotdigit]
    · simp [headNotSat, hVnotdigit]
  have hp3 := pcomp v.reverse (ov.reverse ++ s :: pre.reverse) (hnumrev _ hnum) hhead
  unfold matchTrailingWith
  rw [hrev, hp3]
  simp only []
  have hsep : sepOk seps (ov.reverse ++ s :: pre.reverse) = true := by
    rcases hov with rfl | rfl | rfl
    · simpa using sepOk_complete_nov hmem
    · simpa using sepOk_complete_v (Or.inl rfl) hmem
    · simpa using sepOk_complete_v (Or.inr rfl) hmem
  rw [if_pos hsep]
  rfl

/-! ### Per-pattern soundness and completeness -/

theorem IsNum3_ne_nil {v : List Char} (h : IsNum3 v) : v ≠ [] := by
  obtain ⟨a, b, c, rfl, _, _, _⟩ := h
  simp

theorem IsNum2_ne_nil {v : List Char} (h : IsNum2 v) : v ≠ [] := by
  obtain ⟨a, b, rfl, _, _⟩ := h
  simp

theorem patternRel_ne_nil {seps l v : List Char} :
    ∀ i, patternRel seps i l v → v ≠ []
  | 0, h => by
    obtain ⟨_, _, _, _, _, _, hnum⟩ := h
    exact IsNum3_ne_nil hnum
  | 1, h => by
    obtain ⟨_, _, _, _, _, _, hnum⟩ := h
    exact IsNum2_ne_nil hnum
  | 2, h => by
    obtain ⟨_, _, _, _, _, hnum, _⟩ := h
    exact IsNum3_ne_nil hnum
  | 3, h => by
    obtain ⟨_, _, _, _, _, hnum, _⟩ := h
    exact IsNum2_ne_nil hnum
  | 4, h => by
    obtain ⟨_, _, _, hnum, _⟩ := h
    exact IsNum3_ne_nil hnum
  | n + 5, h => h.elim

theorem patternMatch_sound (seps : List Char) :
    ∀ i l v, patternMatch seps i l = some v → patternRel seps i l v
  | 0, l, v, h =>
    matchTrailingWith_sound (fun _ _ _ hp => parseNum3_sound hp)
      (fun _ hx => IsNum3_reverse hx) h
  | 1, l, v, h =>
    matchTrailingWith_sound (fun _ _ _ hp => parseNum2_sound hp)
      (fun _ hx => IsNum2_reverse hx) h
  | 2, l, v, h => scanVNum_sound (fun _ _ _ hp => parseNum3_sound hp) l v h
  | 3, l, v, h => scanVNum_sound (fun _ _ _ hp => parseNum2_sound hp) l v h
  | 4, l, v, h => scanNum_sound (fun _ _ _ hp => parseNum3_sound hp) l v h
  | n + 5, l, v, h => by simp [patternMatch] at h

theorem patternMatch_isSome (seps : List Char)
    (hseps : ∀ s ∈ seps, Char.isDigit s = false) :
    ∀ i l v, patternRel seps i l v → (patternMatch seps i l).isSome = true
  | 0, l, v, h =>
    matchTrailingWith_isSome (fun _ _ hn hr => parseNum3_complete hn hr)
      (fun _ hx => IsNum3_reverse hx) hseps h
  | 1, l, v, h =>
    matchTrailingWith_isSome (fun _ _ hn hr => parseNum2_complete hn hr)
      (fun _ hx => IsNum2_reverse hx) hseps h
  | 2, l, v, h => by
    obtain ⟨pre, ch, post, rfl, hch, hnum, hpost⟩ := h
    exact scanVNum_isSome (fun _ _ hn hr => parseNum3_complete hn hr) pre ch v post hch
      hnum hpost
  | 3, l, v, h => by
    obtain ⟨pre, ch, post, rfl, hch, hnum, hpost⟩ := h
    exact scanVNum_isSome (fun _ _ hn hr => parseNum2_complete hn hr) pre ch v post hch
      hnum hpost
  | 4, l, v, h => by
    obtain ⟨pre, post, rfl, hnum, hpost⟩ := h
    exact scanNum_isSome (fun _ _ hn hr => parseNum3_complete hn hr)
      (fun _ hx => IsNum3_ne_nil hx) pre v post hnum hpost
  | n + 5, l, v, h => h.elim

theorem firstPatternMatch_eq_none_iff (seps base : List Char) :
    firstPatternMatch seps base = none ↔
      matchTrailing3 seps base = none ∧ matchTrailing2 seps base = none ∧
        scanVNum parseNum3 base = none ∧ scanVNum parseNum2 base = none ∧
        scanNum parseNum3 base = none := by
  unfold firstPatternMatch
  cases h0 : matchTrailing3 seps base with
  | some w => simp
  | none =>
    simp only []
    cases h1 : matchTrailing2 seps base with
    | some w => simp
    | none =>
      simp only []
      cases h2 : scanVNum parseNum3 base with
      | some w => simp
      | none =>
        simp only []
        cases h3 : scanVNum parseNum2 base with
        | some w => simp
        | none => simp

theorem firstPatternMatch_some_first {seps base v : List Char}
    (h : firstPatternMatch seps base = some v) :
    ∃ i, i < 5 ∧ patternMatch seps i base = some v ∧
      ∀ j, j < i → patternMatch seps j base = none := by
  unfold firstPatternMatch at h
  cases h0 : matchTrailing3 seps base with
  | some w =>
    rw [h0] at h
    simp only [Option.some.injEq] at h
    subst h
    exact ⟨0, by omega, by simpa [patternMatch] using h0, fun j hj => by omega⟩
  | none =>
    rw [h0] at h
    simp only [] at h
    cases h1 : matchTrailing2 seps base with
    | some w =>
      rw [h1] at h
      simp only [Option.some.injEq] at h
      subst h
      refine ⟨1, by omega, by simpa [patternMatch] using h1, fun j hj => ?_⟩
      interval_cases j
      simpa [patternMatch] using h0
    | none =>
      rw [h1] at h
      simp only [] at h
      cases h2 : scanVNum parseNum3 base with
      | some w =>
        rw [h2] at h
        simp only [Option.some.injEq] at h
        subst h
        refine ⟨2, by omega, by simpa [patternMatch] using h2, fun j hj => ?_⟩
        interval_cases j
        · simpa [patternMatch] using h0
        · simpa [patternMatch] using h1
      | none =>
        rw [h2] at h
        simp only [] at h
        cases h3 : scanVNum parseNum2 base with
        | some w =>
          rw [h3] at h
          simp only [Option.some.injEq] at h
          subst h
          refine ⟨3, by omega, by simpa [patternMatch] using h3, fun j hj => ?_⟩
          interval_cases j
          · simpa [patternMatch] using h0
          · simpa [patternMatch] using h1
          · simpa [patternMatch] using h2
        | none =>
          rw [h3] at h
          simp only [] at h
          refine ⟨4, by omega, by simpa [patternMatch] using h, fun j hj => ?_⟩
          interval_cases j
          · simpa [patternMatch] using h0
          · simpa [patternMatch] using h1
          · simpa [patternMatch] using h2
          · simpa [patternMatch] using h3

/-! ## Claim C8 — filename-based version extraction -/

/-- C8 counterexample: the code's trailing patterns accept `_` as well as `-`
(so `proj_1.2.zip` resolves to `1.2` although none of the claim's patterns
matches), and only the `.zip`/`.tar.gz`/`.tgz` extensions are stripped (so
`lib-2.3.jar` resolves to nothing although the claim's reading — strip the
extension, then match trailing `-X.Y` — yields `2.3`). -/
theorem claim_C8_counterexample :
    extractVersionFromFilename "proj_1.2.zip" = some "1.2" ∧
    claimExtractVersion "proj_1.2.zip" = none ∧
    extractVersionFromFilename "lib-2.3.jar" = none ∧
    claimExtractVersion "lib-2.3.jar" = some "2.3" := by decide

/-- C8 (amended): filename-based version extraction strips a
`.zip`/`.tar.gz`/`.tgz` extension (case-insensitively; other extensions are
kept) and then matches, in order: trailing `[-_]v?X.Y.Z`, trailing
`[-_]v?X.Y`, embedded `vX.Y.Z`, embedded `vX.Y`, embedded `X.Y.Z` (the `v`
case-insensitive).  The result is `none` exactly when no pattern matches, and
a returned version is a genuine (greedy) capture of the first pattern in this
order that matches at all, every earlier pattern matching nothing. -/
theorem claim_C8_extraction_priority (filename : String) :
    (extractVersionFromFilename filename = none ↔
      ∀ i v, ¬ patternRel stdSeps i (stripArchiveExt filename.data) v) ∧
    (∀ v, extractVersionFromFilename filename = some v →
      ∃ i, i < 5 ∧ patternRel stdSeps i (stripArchiveExt filename.data) v.data ∧
        ∀ j w, j < i → ¬ patternRel stdSeps j (stripArchiveExt filename.data) w) := by
  have hseps : ∀ s ∈ stdSeps, Char.isDigit s = false := by decide
  constructor
  · constructor
    · intro h i v hrel
      have hnone := (firstPatternMatch_eq_none_iff stdSeps
        (stripArchiveExt filename.data)).mp (by
          simpa [extractVersionFromFilename, Option.map_eq_none'] using h)
      obtain ⟨n0, n1, n2, n3, n4⟩ := hnone
      have hsome := patternMatch_isSome stdSeps hseps i (stripArchiveExt filename.data)
        v hrel
      by_cases hi : i < 5
      · interval_cases i
        · simp [patternMatch, n0] at hsome
        · simp [patternMatch, n1] at hsome
        · simp [patternMatch, n2] at hsome
        · simp [patternMatch, n3] at hsome
        · simp [patternMatch, n4] at hsome
      · obtain ⟨k, rfl⟩ : ∃ k, i = k + 5 := ⟨i - 5, by omega⟩
        exact hrel
    · intro hall
      have n0 : matchTrailing3 stdSeps (stripArchiveExt filename.data) = none := by
        cases h0 : matchTrailing3 stdSeps (stripArchiveExt filename.data) with
        | none => rfl
        | some w => exact absurd (patternMatch_sound stdSeps 0 _ w
            (by simpa [patternMatch] using h0)) (hall 0 w)
      have n1 : matchTrailing2 stdSeps (stripArchiveExt filename.data) = none := by
        cases h1 : matchTrailing2 stdSeps (stripArchiveExt filename.data) with
        | none => rfl
        | some w => exact absurd (patternMatch_sound stdSeps 1 _ w
            (by simpa [patternMatch] using h1)) (hall 1 w)
      have n2 : scanVNum parseNum3 (stripArchiveExt filename.data) = none := by
        cases h2 : scanVNum parseNum3 (stripArchiveExt filename.data) with
        | none => rfl
        | some w => exact absurd (patternMatch_sound stdSeps 2 _ w
            (by simpa [patternMatch] using h2)) (hall 2 w)
      have n3 : scanVNum parseNum2 (stripArchiveExt filename.data) = none := by
        cases h3 : scanVNum parseNum2 (stripArchiveExt filename.data) with
        | none => rfl
        | some w => exact absurd (patternMatch_sound stdSeps 3 _ w
            (by simpa [patternMatch] using h3)) (hall 3 w)
      have n4 : scanNum parseNum3 (stripArchiveExt filename.data) = none := by
        cases h4 : scanNum parseNum3 (stripArchiveExt filename.data) with
        | none => rfl
        | some w => exact absurd (patternMatch_sound stdSeps 4 _ w
            (by simpa [patternMatch] using h4)) (hall 4 w)
      have hn := (firstPatternMatch_eq_none_iff stdSeps
        (stripArchiveExt filename.data)).mpr ⟨n0, n1, n2, n3, n4⟩
      simp [extractVersionFromFilename, hn]
  · intro v h
    have h2 : firstPatternMatch stdSeps (stripArchiveExt filename.data) = some v.data := by
      rcases Option.map_eq_some'.mp (by
        simpa [extractVersionFromFilename] using h) with ⟨cap, hcap, rfl⟩
      simpa using hcap
    rcases firstPatternMatch_some_first h2 with ⟨i, hi5, hmi, hprev⟩
    refine ⟨i, hi5, patternMatch_sound stdSeps i _ v.data hmi, fun j w hj hrel => ?_⟩
    have hs := patternMatch_isSome stdSeps hseps j (stripArchiveExt filename.data) w hrel
    rw [hprev j hj] at hs
    simp at hs

theorem claim_C8_extraction_priority_witness :
    ∃ i, i < 5 ∧
      patternRel stdSeps i (stripArchiveExt ("project-v1.2.3.zip" : String).data)
        ("1.2.3" : String).data ∧
      ∀ j w, j < i →
        ¬ patternRel stdSeps j (stripArchiveExt ("project-v1.2.3.zip" : String).data) w :=
  (claim_C8_extraction_priority "project-v1.2.3.zip").2 "1.2.3" (by decide)

/-! ## Claim C1 — the order in which version sources are consulted -/

theorem extractVersionFromFilename_ne_empty {f v : String}
    (h : extractVersionFromFilename f = some v) : v ≠ "" := by
  rcases Option.map_eq_some'.mp (by
    simpa [extractVersionFromFilename] using h) with ⟨cap, hcap, rfl⟩
  rcases firstPatternMatch_some_first hcap with ⟨i, _, hmi, _⟩
  have hne := patternRel_ne_nil i (patternMatch_sound stdSeps i _ cap hmi)
  intro hc
  apply hne
  simpa using congrArg String.data hc

theorem mem_insertByLt {α : Type} {lt : α → α → Bool} {x a : α} :
    ∀ l, a ∈ insertByLt lt x l ↔ a = x ∨ a ∈ l
  | [] => by simp [insertByLt]
  | y :: ys => by
    unfold insertByLt
    by_cases hy : lt y x
    · rw [if_pos hy]
      simp only [List.mem_cons, mem_insertByLt ys]
      tauto
    · rw [if_neg hy]
      simp only [List.mem_cons]

theorem mem_sortByLt {α : Type} {lt : α → α → Bool} {a : α} :
    ∀ l, a ∈ sortByLt lt l ↔ a ∈ l
  | [] => Iff.rfl
  | x :: xs => by simp [sortByLt, mem_insertByLt, mem_sortByLt xs]

theorem parseNum2_ne_nil {l : List Char} {x : List Char × List Char}
    (h : parseNum2 l = some x) : l ≠ [] := by
  intro hc
  subst hc
  rw [show parseNum2 ([] : List Char) = none from by decide] at h
  exact Option.noConfusion h

theorem validTagName_strip_ne {s : String} (h : validTagName s.data = true) :
    stripLeadingV s ≠ "" := by
  intro hcon
  cases hs : s.data with
  | nil =>
    rw [hs] at h
    exact absurd h (by decide)
  | cons c r =>
    by_cases hc : c = 'v'
    · subst hc
      have hstrip : stripLeadingV s = String.mk r := by
        unfold stripLeadingV
        rw [hs]
        simp
      rw [hstrip] at hcon
      have hr : r = [] := by simpa using congrArg String.data hcon
      rw [hs, hr] at h
      exact absurd h (by decide)
    · have hstrip : stripLeadingV s = s := by
        unfold stripLeadingV
        rw [hs]
        simp [hc]
      rw [hstrip] at hcon
      have := congrArg String.data hcon
      rw [hs] at this
      simp at this

theorem fetchGitHubVersionPure_ne_empty {tags : List String} {v : String}
    (h : fetchGitHubVersionPure tags = some v) : v ≠ "" := by
  unfold fetchGitHubVersionPure at h
  have hv := List.mem_of_mem_head? h
  rw [mem_sortByLt] at hv
  rcases List.mem_map.mp hv with ⟨t, ht, rfl⟩
  exact validTagName_strip_ne (by simpa using (List.mem_filter.mp ht).2)

/-- C1 counterexample: in the clone flow the stored `originalFilename` is the
repository name; for a repository named `lib-v2.0.1` (whose filename pattern
yields `2.0.1`) with upstream tag list `["v3.0.0"]`, the flow resolves
`3.0.0` — the upstream tags are consulted first and the filename never is, so
the filename does not win. -/
theorem claim_C1_counterexample :
    cloneDetectVersion ["v3.0.0"] .nil = some "3.0.0" ∧
    extractVersionFromFilename "lib-v2.0.1" = some "2.0.1" ∧
    cloneDetectVersion ["v3.0.0"] .nil ≠ some "2.0.1" := by decide

/-- C1 (amended): there is no single cross-source priority; each ingestion
flow has its own two-step order.  The upload flow tries the filename pattern
first and consults `gradle.properties` exactly when the filename yields
nothing (upstream tags do not exist for uploads); the clone and update flows
try the upstream tag list first and consult `gradle.properties` exactly when
the tags yield nothing (the filename is never consulted). -/
theorem claim_C1_resolution_order (fn : String) (src : FsEntries) (tags : List String) :
    (∀ v, extractVersionFromFilename fn = some v → uploadDetectVersion fn src = some v) ∧
    (extractVersionFromFilename fn = none →
      uploadDetectVersion fn src = extractVersionFromGradlePropertiesE src) ∧
    (∀ v, fetchGitHubVersionPure tags = some v → cloneDetectVersion tags src = some v) ∧
    (fetchGitHubVersionPure tags = none →
      cloneDetectVersion tags src = extractVersionFromGradlePropertiesE src) := by
  refine ⟨fun v hv => ?_, fun hn => ?_, fun v hv => ?_, fun hn => ?_⟩
  · simp [uploadDetectVersion, jsOrStr, hv, extractVersionFromFilename_ne_empty hv]
  · simp [uploadDetectVersion, jsOrStr, hn]
  · simp [cloneDetectVersion, jsOrStr, hv, fetchGitHubVersionPure_ne_empty hv]
  · simp [cloneDetectVersion, jsOrStr, hn]

theorem claim_C1_resolution_order_witness :
    uploadDetectVersion "demo-v1.2.3.zip" .nil = some "1.2.3" ∧
    cloneDetectVersion ["v3.0.0"] .nil = some "3.0.0" :=
  ⟨(claim_C1_resolution_order "demo-v1.2.3.zip" FsEntries.nil []).1 "1.2.3" (by decide),
   (claim_C1_resolution_order "demo-v1.2.3.zip" FsEntries.nil ["v3.0.0"]).2.2.1 "3.0.0"
     (by decide)⟩

end TinyMvn
